import Mathlib

/-!
Shallow embedding of the Reversi rules engine in `src/reversi.py`
(class `Board` + class `Reversi`).

The board grid is a `side × side` list of lists of integers, `0` meaning an
empty square and a positive value the owning player's number, exactly as the
`numpy` grid used by the source.  The `Board._pieces` mirror kept by the source
is always kept in sync with `_grid` (every mutation updates both), so pieces
are derived here from the grid.  Mutating methods of the source are modelled as
functions `Reversi → args → Reversi × Option String`: the returned state is the
state of the object after the call (also after a call that raises mid-way), and
the second component is `some msg` exactly when the Python method raises
`ValueError`/`IndexError` with that message.
-/

abbrev Grid := List (List Int)

/-- Read `grid[r][c]`; every read performed by the source is guarded by a
bounds check, so the default for an out-of-range index is never observed. -/
def gget (g : Grid) (r c : Int) : Int :=
  if 0 ≤ r ∧ 0 ≤ c then (g.getD r.toNat []).getD c.toNat 0 else 0

/-- Write `grid[r][c] = v`; same guarding remark as for `gget`. -/
def gset (g : Grid) (r c : Int) (v : Int) : Grid :=
  if 0 ≤ r ∧ 0 ≤ c then g.set r.toNat ((g.getD r.toNat []).set c.toNat v) else g

/-- State of a `Reversi` object: `_side`, `_players`, `_othello`, the board
grid, `_turn`, `_done`, `first_two`, `_outcome` and the `_moves` history
(mover, list of (square, previous owner)). -/
structure Reversi where
  side : Nat
  players : Nat
  othello : Bool
  grid : Grid
  turn : Nat
  done : Bool
  first_two : Bool
  outcome : List Nat
  moves : List (Nat × List ((Int × Int) × Int))
  deriving Repr, DecidableEq

def DIRECTION_LIST : List (Int × Int) :=
  [(1, 1), (0, 1), (1, 0), (-1, -1), (0, -1), (-1, 0), (1, -1), (-1, 1)]

def inB (side : Nat) (r c : Int) : Prop :=
  0 ≤ r ∧ r < (side : Int) ∧ 0 ≤ c ∧ c < (side : Int)

instance (side : Nat) (r c : Int) : Decidable (inB side r c) := by
  unfold inB; infer_instance

/-- `Reversi.move_works`.  The Python recursion walks along `dir` from one
piece to the next; the walk stays in bounds and advances one square per call,
so a fuel of `side + 1` (as supplied by `move_works`) never runs out. -/
def move_worksAux (s : Reversi) : Nat → Int → Int → Int → Int → Nat → Option (Int × Int)
  | 0, _, _, _, _, _ => none
  | fuel + 1, r, c, y, x, rec =>
    if (0 ≤ r - y ∧ r - y < (s.side : Int) ∧ 0 ≤ c - x ∧ c - x < (s.side : Int) ∧
        0 ≤ r + y ∧ r + y < (s.side : Int) ∧ 0 ≤ c + x ∧ c + x < (s.side : Int)) ∧
       gget s.grid r c ≠ (s.turn : Int) ∧ gget s.grid (r + y) (c + x) ≠ 0 ∧
       (gget s.grid (r - y) (c - x) = 0 ∨ 1 < rec) then
      if gget s.grid (r + y) (c + x) = (s.turn : Int) then
        some (r - (rec : Int) * y, c - (rec : Int) * x)
      else
        move_worksAux s fuel (r + y) (c + x) y x (rec + 1)
    else
      none

def move_works (s : Reversi) (pos : Int × Int) (dir : Int × Int) : Option (Int × Int) :=
  move_worksAux s (s.side + 1) pos.1 pos.2 dir.1 dir.2 1

/-- The move dictionary built by `find_moves`: keys are directions (or, during
the opening phase, board positions), values are lists of candidate moves, in
Python dict insertion order. -/
abbrev MoveDict := List ((Int × Int) × List (Int × Int))

def dictAdd (d : MoveDict) (k : Int × Int) (v : Int × Int) : MoveDict :=
  match d with
  | [] => [(k, [v])]
  | (k', l) :: rest => if k' = k then (k', l ++ [v]) :: rest else (k', l) :: dictAdd rest k v

def dictFind (d : MoveDict) (k : Int × Int) : List (Int × Int) :=
  match d with
  | [] => []
  | (k', l) :: rest => if k' = k then l else dictFind rest k

/-- `Board.pieces`: the non-empty squares with their owners, row-major. -/
def pieceList (g : Grid) : List ((Int × Int) × Int) :=
  (g.enum.map (fun rRow =>
    rRow.2.enum.filterMap (fun cV =>
      if cV.2 ≠ 0 then some (((rRow.1 : Int), (cV.1 : Int)), cV.2) else none))).flatten

def intRange (lo hi : Int) : List Int :=
  (List.range (hi - lo).toNat).map (fun i : Nat => lo + (i : Int))

/-- The central free-placement zone scanned by the opening branch of
`find_moves`, row-major. -/
def openingZone (s : Reversi) : List (Int × Int) :=
  let middle : Int := (s.side : Int) / 2
  let lower : Int := middle - (s.players : Int) / 2
  let upper : Int := middle + (s.players : Int) / 2 + (s.side : Int) % 2
  (intRange lower upper).flatMap (fun r => (intRange lower upper).map (fun c => (r, c)))

/-- The non-opening branch of `find_moves`: for every piece of another player
and every direction, if the square behind the piece is on the board and empty
and `move_works` succeeds, add that square to the direction's list. -/
def normalMoves (s : Reversi) (md₀ : MoveDict) : MoveDict :=
  (pieceList s.grid).foldl (fun md pp =>
    if pp.2 ≠ (s.turn : Int) then
      DIRECTION_LIST.foldl (fun md dir =>
        let r := pp.1.1
        let c := pp.1.2
        let y := dir.1
        let x := dir.2
        if (0 ≤ r - y ∧ r - y < (s.side : Int) ∧ 0 ≤ c - x ∧ c - x < (s.side : Int)) ∧
           gget s.grid (r - y) (c - x) = 0 ∧ (move_works s pp.1 dir).isSome then
          dictAdd md dir (r - y, c - x)
        else md) md
    else md) md₀

/-- `Reversi.find_moves`.  Besides returning the move dictionary it can clear
`first_two` (when the central zone has just been found full), so it returns
the updated state as well. -/
def find_moves (s : Reversi) : MoveDict × Reversi :=
  if s.done then ([], s)
  else
    let zone : List (Int × Int) :=
      if s.first_two then (openingZone s).filter (fun p => gget s.grid p.1 p.2 = 0) else []
    let ft : Bool := s.first_two && !zone.isEmpty
    let md₁ : MoveDict := zone.map (fun p => (p, [p]))
    let md : MoveDict := if ft then md₁ else normalMoves s md₁
    (md, { s with first_two := ft })

def availInsert (acc : List (Int × Int)) (m : Int × Int) : List (Int × Int) :=
  if m ∈ acc then acc else acc ++ [m]

/-- `Reversi.available_moves` (a property in Python; it calls `find_moves`,
hence may update `first_two`). -/
def available_moves (s : Reversi) : List (Int × Int) × Reversi :=
  let fm := find_moves s
  (((fm.1.map (fun e => e.2)).flatten).foldl availInsert [], fm.2)

/-- `Reversi.skip_turn`. -/
def skip_turn (s : Reversi) : Reversi :=
  if s.turn < s.players then { s with turn := s.turn + 1 } else { s with turn := 1 }

def countPieces (g : Grid) (p : Nat) : Nat :=
  ((g.flatten).filter (fun v => v = (p : Int))).length

/-- Loop body of the winner scan in `end_game`. -/
def egStep (cnt : Nat → Nat) (acc : List Nat × Nat) (p : Nat) : List Nat × Nat :=
  let c := cnt p
  if acc.2 < c then ([p], c) else if c = acc.2 then (acc.1 ++ [p], acc.2) else acc

/-- `Reversi.end_game`. -/
def end_game (s : Reversi) : Reversi :=
  let res := (List.range' 1 s.players).foldl (egStep (countPieces s.grid)) (s.outcome, 0)
  { s with outcome := res.1, done := true, turn := 1 }

def numPieces (g : Grid) : Nat := ((g.flatten).filter (fun v => v ≠ 0)).length

/-- Number of distinct values occurring in the grid (`len(np.unique(grid))`);
note this counts the empty value `0` as well when present. -/
def numDistinctVals (g : Grid) : Nat := ((g.flatten).dedup).length

/-- The flipping `while True` loop of `apply_move` for one direction, started
one step away from the placed square.  Walks while the square is on the board
and not owned by the mover; flipping an empty square raises (that is
`Board.update_piece`'s "No piece at that position").  Returns the grid and the
journal of (square, previous owner) pairs in append order.  The walk advances
one square per step and stays in bounds, so fuel `side + 1` never runs out. -/
def flipRay (side turn : Nat) : Nat → Grid → Int → Int → Int → Int →
    (Grid × List ((Int × Int) × Int)) × Option String
  | 0, g, _, _, _, _ => ((g, []), some "fuel exhausted")
  | fuel + 1, g, r, c, y, x =>
    if (0 ≤ r ∧ r < (side : Int) ∧ 0 ≤ c ∧ c < (side : Int)) ∧ gget g r c ≠ (turn : Int) then
      if gget g r c ≠ 0 then
        let rest := flipRay side turn fuel (gset g r c (turn : Int)) (r + y) (c + x) y x
        ((rest.1.1, ((r, c), gget g r c) :: rest.1.2), rest.2)
      else ((g, []), some "No piece at that position")
    else ((g, []), none)

/-- The `for dir in DIRECTION_LIST` loop of `apply_move`: flip along every
direction whose dictionary entry contains `pos`.  On a raise the partially
flipped grid is returned (the Python exception propagates mid-mutation). -/
def flipDirs (side turn : Nat) (md : MoveDict) (pos : Int × Int) :
    List (Int × Int) → Grid → (Grid × List ((Int × Int) × Int)) × Option String
  | [], g => ((g, []), none)
  | d :: rest, g =>
    if pos ∈ dictFind md d then
      let fr := flipRay side turn (side + 1) g (pos.1 + d.1) (pos.2 + d.2) d.1 d.2
      match fr.2 with
      | some e => ((fr.1.1, fr.1.2), some e)
      | none =>
        let more := flipDirs side turn md pos rest fr.1.1
        ((more.1.1, fr.1.2 ++ more.1.2), more.2)
    else flipDirs side turn md pos rest g

/-- `Reversi.apply_move`. -/
def apply_move (s : Reversi) (pos : Int × Int) : Reversi × Option String :=
  if ¬ inB s.side pos.1 pos.2 then (s, some "Specified position outside board")
  else
    let fm := find_moves s
    let s1 := fm.2
    let g1 := gset s1.grid pos.1 pos.2 (s1.turn : Int)
    let fr := flipDirs s1.side s1.turn fm.1 pos DIRECTION_LIST g1
    match fr.2 with
    | some e => ({ s1 with grid := fr.1.1 }, some e)
    | none =>
      let mv : List ((Int × Int) × Int) := (pos, 0) :: fr.1.2
      let s2 := { s1 with grid := fr.1.1, moves := s1.moves ++ [(s1.turn, mv)] }
      let s3 := skip_turn s2
      if (s3.first_two = false ∧
            (numDistinctVals s3.grid = 1 ∨ numDistinctVals s3.grid = 2)) ∨
         numPieces s3.grid = s3.side * s3.side then
        (end_game s3, none)
      else (s3, none)

def gridOwnersOk (players : Nat) (g : Grid) : Bool :=
  g.all (fun row => row.all (fun v => !((players : Int) < v || v < 0)))

/-- `Reversi.load_game`.  Grid cells use `0` for Python's `None`/empty (a
`None` cell is skipped by the owner check and is falsy in
`Board.update_grid`, exactly as `0` is here).  Note the source does NOT clear
the `_moves` history. -/
def load_game (s : Reversi) (turn : Int) (g : Grid) : Reversi × Option String :=
  if turn < 1 ∨ (s.players : Int) < turn then (s, some "No such player exists")
  else if g.length ≠ s.side then
    (s, some "Input is not the same size as the current board")
  else if ¬ gridOwnersOk s.players g then (s, some "Grid contains invalid player")
  else ({ s with grid := g, done := false, outcome := [], turn := turn.toNat }, none)

/-- The restore loop of `roll_back`: squares with a positive recorded owner are
restored via `Board.update_piece` (which raises on an empty square), the rest
are removed. -/
def restoreSquares : Grid → List ((Int × Int) × Int) → Grid × Option String
  | g, [] => (g, none)
  | g, ((r, c), p) :: rest =>
    if 0 < p then
      if gget g r c ≠ 0 then restoreSquares (gset g r c p) rest
      else (g, some "No piece at that position")
    else restoreSquares (gset g r c 0) rest

/-- `Reversi.roll_back`. -/
def roll_back (s : Reversi) : Reversi × Option String :=
  match s.moves.getLast? with
  | none => (s, some "pop from empty list")
  | some tm =>
    let s1 := { s with moves := s.moves.dropLast, turn := tm.1 }
    let s2 := if s1.done then { s1 with done := false, outcome := [] } else s1
    let s3 := if tm.2.length = 1 then { s2 with first_two := true } else s2
    let gr := restoreSquares s3.grid tm.2
    ({ s3 with grid := gr.1 }, gr.2)

/-- The loop of `simulate_moves` applied to the deep copy: apply each move in
sequence, stopping at (and propagating) the first raise. -/
def applyMovesSeq : Reversi → List (Int × Int) → Reversi × Option String
  | s, [] => (s, none)
  | s, m :: rest =>
    let r := apply_move s m
    match r.2 with
    | none => applyMovesSeq r.1 rest
    | some e => (r.1, some e)

/-- `Reversi.simulate_moves`: the moves are applied to `deepcopy(self)`; the
receiver (returned as the second component, being the state of `self` after
the call) is never touched.  `deepcopy` of the object graph corresponds to the
plain value here, sharing no mutable state with the original. -/
def simulate_moves (s : Reversi) (moves : List (Int × Int)) :
    (Reversi × Option String) × Reversi :=
  (applyMovesSeq s moves, s)

/-- `Reversi.__init__`: validation followed by board construction (and the
Othello four-piece seed, which also clears `first_two`). -/
def mkReversi (side players : Nat) (othello : Bool) : Except String Reversi :=
  if 2 < players ∧ othello then
    Except.error "Othello is not allowed for more than 2 players."
  else if players < 2 ∨ 9 < players then Except.error "Player count must be 2-9."
  else if side < 3 then Except.error "Side length must be greater than 3."
  else if side ≤ players then
    Except.error "Side length must be greater than number of players."
  else if side % 2 ≠ players % 2 then
    Except.error "Parity of players and side length must match."
  else
    let g0 : Grid := List.replicate side (List.replicate side 0)
    let base : Reversi :=
      { side := side, players := players, othello := othello, grid := g0,
        turn := 1, done := false, first_two := true, outcome := [], moves := [] }
    if othello then
      let h : Int := (side : Int) / 2
      Except.ok { base with
        grid := gset (gset (gset (gset g0 (h - 1) (h - 1) 2) h h 2) h (h - 1) 1) (h - 1) h 1,
        first_two := false }
    else Except.ok base

instance : DecidableEq (Except String Reversi) := fun a b =>
  match a, b with
  | .ok x, .ok y =>
    if h : x = y then .isTrue (by rw [h]) else .isFalse (by simp [h])
  | .error x, .error y =>
    if h : x = y then .isTrue (by rw [h]) else .isFalse (by simp [h])
  | .ok _, .error _ => .isFalse (by simp)
  | .error _, .ok _ => .isFalse (by simp)

/-! ### Concrete scenario states

Each scenario state is spelled out as an explicit structure literal; the claim
theorems tie it to `mkReversi`/`load_game` so that it is exactly the state the
source constructs. -/

/-- The initial `Reversi(side=8, players=2, othello=True)` state. -/
def scenarioA : Reversi :=
  { side := 8, players := 2, othello := true,
    grid := [[0, 0, 0, 0, 0, 0, 0, 0],
             [0, 0, 0, 0, 0, 0, 0, 0],
             [0, 0, 0, 0, 0, 0, 0, 0],
             [0, 0, 0, 2, 1, 0, 0, 0],
             [0, 0, 0, 1, 2, 0, 0, 0],
             [0, 0, 0, 0, 0, 0, 0, 0],
             [0, 0, 0, 0, 0, 0, 0, 0],
             [0, 0, 0, 0, 0, 0, 0, 0]],
    turn := 1, done := false, first_two := false, outcome := [], moves := [] }

/-- The initial `Reversi(side=4, players=2, othello=False)` state. -/
def scenario4n : Reversi :=
  { side := 4, players := 2, othello := false,
    grid := [[0, 0, 0, 0], [0, 0, 0, 0], [0, 0, 0, 0], [0, 0, 0, 0]],
    turn := 1, done := false, first_two := true, outcome := [], moves := [] }

/-- The initial `Reversi(side=4, players=2, othello=True)` state. -/
def reversi4x4othello : Reversi :=
  { side := 4, players := 2, othello := true,
    grid := [[0, 0, 0, 0], [0, 2, 1, 0], [0, 1, 2, 0], [0, 0, 0, 0]],
    turn := 1, done := false, first_two := false, outcome := [], moves := [] }

/-- Loaded position for the turn-skip check: player 1 to move, `(3,1)` brackets
the column of 2s; after the move player 2 has no move but player 1 does. -/
def c1Grid : Grid := [[0, 1, 0, 0], [0, 2, 0, 2], [0, 2, 0, 1], [0, 0, 0, 1]]

def c1pre : Reversi := (load_game reversi4x4othello 1 c1Grid).1

/-- Loaded position for the end-detection check: after player 1 plays `(3,1)`
neither player has a legal move, yet the board is not full and two owners
remain. -/
def c4Grid : Grid := [[0, 1, 0, 2], [0, 2, 0, 0], [0, 2, 0, 0], [0, 0, 0, 0]]

def c4pre : Reversi := (load_game reversi4x4othello 1 c4Grid).1

/-- Loaded near-full position (from `test_winner_1`): `(0,0)` ends the game. -/
def winGrid : Grid := [[0, 2, 1, 1], [1, 1, 1, 1], [1, 1, 1, 1], [2, 2, 2, 2]]

def winPre : Reversi := (load_game reversi4x4othello 1 winGrid).1

/-! ### Claim theorems: concrete evaluations -/

/-- C1: evaluation of the code at a failing input.  From the loaded position
`c1pre`, the move `(3,1)` is legal for player 1; after `apply_move` the engine
sets `turn = 2` although player 2 has zero available moves while player 1 has
one — `apply_move` advances the turn exactly once and never skips a player
with no moves, contradicting the claim (and `apply_move`'s own docstring). -/
theorem c1_no_turn_skip_eval :
    mkReversi 4 2 true = Except.ok reversi4x4othello ∧
    load_game reversi4x4othello 1 c1Grid = (c1pre, none) ∧
    (3, 1) ∈ (available_moves c1pre).1 ∧
    (apply_move c1pre (3, 1)).2 = none ∧
    (apply_move c1pre (3, 1)).1.done = false ∧
    (apply_move c1pre (3, 1)).1.turn = 2 ∧
    (available_moves (apply_move c1pre (3, 1)).1).1 = [] ∧
    (available_moves { (apply_move c1pre (3, 1)).1 with turn := 1 }).1 = [(0, 3)] := by
  decide

/-- C4: evaluation of the code at a failing input.  From the loaded position
`c4pre`, after the legal move `(3,1)` no player has a legal move, the board is
not full (5 of 16 squares occupied) and both owners still have pieces, yet
`done` is `false`: `apply_move` performs no "no player can move" check. -/
theorem c4_no_dead_end_detection_eval :
    load_game reversi4x4othello 1 c4Grid = (c4pre, none) ∧
    (3, 1) ∈ (available_moves c4pre).1 ∧
    (apply_move c4pre (3, 1)).2 = none ∧
    (available_moves { (apply_move c4pre (3, 1)).1 with turn := 1 }).1 = [] ∧
    (available_moves { (apply_move c4pre (3, 1)).1 with turn := 2 }).1 = [] ∧
    numPieces (apply_move c4pre (3, 1)).1.grid = 5 ∧
    countPieces (apply_move c4pre (3, 1)).1.grid 1 ≠ 0 ∧
    countPieces (apply_move c4pre (3, 1)).1.grid 2 ≠ 0 ∧
    (apply_move c4pre (3, 1)).1.done = false := by
  decide

/-- C3 counterexample: from the Scenario A position, `(3,5)` is on the board
but not an available move, yet `apply_move scenarioA (3,5)` raises nothing and
mutates the state (it places player 1's piece at `(3,5)`). -/
theorem c3_illegal_move_counterexample :
    mkReversi 8 2 true = Except.ok scenarioA ∧
    inB scenarioA.side 3 5 ∧
    (3, 5) ∉ (available_moves scenarioA).1 ∧
    (apply_move scenarioA (3, 5)).2 = none ∧
    (apply_move scenarioA (3, 5)).1 ≠ scenarioA := by
  decide

/-- C6: evaluation of the code at a failing input.  In the fresh
`side=4, players=2, othello=False` game the opening zone is
`{(1,1),(1,2),(2,1),(2,2)}`, so `(1,1)` is a legal free-placement move; but
`apply_move scenario4n (1,1)` raises `ValueError("No piece at that position")`
because the zone key `(1,1)` collides with the direction tuple `(1,1)` and the
flip walk immediately hits the empty square `(2,2)`. -/
theorem c6_opening_apply_move_raises :
    mkReversi 4 2 false = Except.ok scenario4n ∧
    (available_moves scenario4n).1 = [(1, 1), (1, 2), (2, 1), (2, 2)] ∧
    (apply_move scenario4n (1, 1)).2 = some "No piece at that position" ∧
    gget (apply_move scenario4n (1, 1)).1.grid 1 1 = 1 := by
  decide

/-- C7: the initial `side=8, players=2, othello=True` board has exactly the
four centre pieces `(3,3)=2`, `(3,4)=1`, `(4,3)=1`, `(4,4)=2`, and the
available moves of player 1 are exactly `{(2,3),(3,2),(4,5),(5,4)}`. -/
theorem c7_initial_position :
    mkReversi 8 2 true = Except.ok scenarioA ∧
    scenarioA.grid = [[0, 0, 0, 0, 0, 0, 0, 0],
                      [0, 0, 0, 0, 0, 0, 0, 0],
                      [0, 0, 0, 0, 0, 0, 0, 0],
                      [0, 0, 0, 2, 1, 0, 0, 0],
                      [0, 0, 0, 1, 2, 0, 0, 0],
                      [0, 0, 0, 0, 0, 0, 0, 0],
                      [0, 0, 0, 0, 0, 0, 0, 0],
                      [0, 0, 0, 0, 0, 0, 0, 0]] ∧
    (available_moves scenarioA).1.Perm [(2, 3), (3, 2), (4, 5), (5, 4)] := by
  decide

/-- C5 counterexample: `load_game` does not clear the `_moves` history.  After
one applied move, a successful `load_game` leaves the old history record in
place (the claim says the history is cleared). -/
theorem c5_history_not_cleared :
    (apply_move reversi4x4othello (0, 1)).2 = none ∧
    (load_game (apply_move reversi4x4othello (0, 1)).1 1 c4Grid).2 = none ∧
    (load_game (apply_move reversi4x4othello (0, 1)).1 1 c4Grid).1.moves =
      [(1, [((0, 1), 0), ((1, 1), 2)])] := by
  decide

/-- C9: `simulate_moves` never touches the receiver: the receiver returned
after the call is the very state it was called on (field by field), and the
simulation result is the fold of `apply_move` over the deep copy. -/
theorem c9_simulate_receiver_unchanged (s : Reversi) (moves : List (Int × Int)) :
    (simulate_moves s moves).2 = s ∧
    (simulate_moves s moves).2.grid = s.grid ∧
    (simulate_moves s moves).2.turn = s.turn ∧
    (simulate_moves s moves).2.done = s.done ∧
    (simulate_moves s moves).2.outcome = s.outcome ∧
    (simulate_moves s moves).2.moves = s.moves ∧
    (simulate_moves s moves).1 = applyMovesSeq s moves :=
  ⟨rfl, rfl, rfl, rfl, rfl, rfl, rfl⟩

/-! ### Field-preservation helper lemmas -/

theorem find_moves_done (s : Reversi) : (find_moves s).2.done = s.done := by
  unfold find_moves; split <;> rfl

theorem find_moves_turn (s : Reversi) : (find_moves s).2.turn = s.turn := by
  unfold find_moves; split <;> rfl

theorem find_moves_grid (s : Reversi) : (find_moves s).2.grid = s.grid := by
  unfold find_moves; split <;> rfl

theorem find_moves_moves (s : Reversi) : (find_moves s).2.moves = s.moves := by
  unfold find_moves; split <;> rfl

theorem find_moves_outcome (s : Reversi) : (find_moves s).2.outcome = s.outcome := by
  unfold find_moves; split <;> rfl

theorem find_moves_side (s : Reversi) : (find_moves s).2.side = s.side := by
  unfold find_moves; split <;> rfl

theorem find_moves_players (s : Reversi) : (find_moves s).2.players = s.players := by
  unfold find_moves; split <;> rfl

theorem skip_turn_done (s : Reversi) : (skip_turn s).done = s.done := by
  unfold skip_turn; split <;> rfl

theorem skip_turn_grid (s : Reversi) : (skip_turn s).grid = s.grid := by
  unfold skip_turn; split <;> rfl

theorem skip_turn_moves (s : Reversi) : (skip_turn s).moves = s.moves := by
  unfold skip_turn; split <;> rfl

theorem skip_turn_outcome (s : Reversi) : (skip_turn s).outcome = s.outcome := by
  unfold skip_turn; split <;> rfl

theorem skip_turn_side (s : Reversi) : (skip_turn s).side = s.side := by
  unfold skip_turn; split <;> rfl

theorem skip_turn_players (s : Reversi) : (skip_turn s).players = s.players := by
  unfold skip_turn; split <;> rfl

theorem skip_turn_first_two (s : Reversi) : (skip_turn s).first_two = s.first_two := by
  unfold skip_turn; split <;> rfl

theorem end_game_turn (s : Reversi) : (end_game s).turn = 1 := rfl

theorem end_game_done (s : Reversi) : (end_game s).done = true := rfl

theorem end_game_grid (s : Reversi) : (end_game s).grid = s.grid := rfl

theorem end_game_moves (s : Reversi) : (end_game s).moves = s.moves := rfl

/-- C10: whenever `apply_move` itself detects the end of the game (the state
was not done before the call and is done after it), `end_game` has run, and
`end_game` deterministically resets the turn to player 1. -/
theorem c10_end_detection_turn_one (s : Reversi) (pos : Int × Int) (t : Reversi)
    (h : apply_move s pos = (t, none)) (h0 : s.done = false) (h1 : t.done = true) :
    t.turn = 1 := by
  unfold apply_move at h
  split at h
  · exact absurd (congrArg Prod.snd h) (by simp)
  · dsimp only at h
    split at h
    · exact absurd (congrArg Prod.snd h) (by simp)
    · split at h
      · have ht : t = end_game (skip_turn _) := (Prod.ext_iff.mp h).1.symm
        rw [ht, end_game_turn]
      · exfalso
        have ht : t = skip_turn _ := (Prod.ext_iff.mp h).1.symm
        rw [ht, skip_turn_done] at h1
        simp only [find_moves_done] at h1
        rw [h0] at h1
        exact Bool.false_ne_true h1

/-- Witness for C10: from the loaded near-full 4x4 board, `apply_move (0,0)`
ends the game and the turn is 1. -/
theorem c10_end_detection_turn_one_witness : (apply_move winPre (0, 0)).1.turn = 1 :=
  c10_end_detection_turn_one winPre (0, 0) (apply_move winPre (0, 0)).1
    (by decide) (by decide) (by decide)

/-! ### List index/update lemmas -/

theorem getD_set_self {α : Type} (l : List α) (n : Nat) (a d : α) (h : n < l.length) :
    (l.set n a).getD n d = a := by
  induction l generalizing n with
  | nil => simp at h
  | cons x xs ih =>
    cases n with
    | zero => rfl
    | succ m => simpa using ih m (by simpa using h)

theorem getD_set_ne {α : Type} (l : List α) (m n : Nat) (a d : α) (h : m ≠ n) :
    (l.set m a).getD n d = l.getD n d := by
  induction l generalizing m n with
  | nil => simp
  | cons x xs ih =>
    cases m with
    | zero =>
      cases n with
      | zero => exact absurd rfl h
      | succ k => simp
    | succ j =>
      cases n with
      | zero => simp
      | succ k => simpa using ih j k (by omega)

theorem set_of_length_le {α : Type} (l : List α) (n : Nat) (a : α) (h : l.length ≤ n) :
    l.set n a = l := by
  induction l generalizing n with
  | nil => simp
  | cons x xs ih =>
    cases n with
    | zero => simp at h
    | succ m => simpa using ih m (by simpa using h)

theorem mem_of_mem_set {α : Type} {l : List α} {n : Nat} {a b : α} (h : b ∈ l.set n a) :
    b ∈ l ∨ b = a := by
  induction l generalizing n with
  | nil => simp at h
  | cons x xs ih =>
    cases n with
    | zero =>
      rcases List.mem_cons.mp h with h | h
      · exact Or.inr h
      · exact Or.inl (List.mem_cons_of_mem _ h)
    | succ m =>
      rcases List.mem_cons.mp h with h | h
      · exact Or.inl (h ▸ List.mem_cons_self _ _)
      · rcases ih h with h | h
        · exact Or.inl (List.mem_cons_of_mem _ h)
        · exact Or.inr h

theorem getD_mem {α : Type} {l : List α} {n : Nat} (d : α) (h : n < l.length) :
    l.getD n d ∈ l := by
  induction l generalizing n with
  | nil => simp at h
  | cons x xs ih =>
    cases n with
    | zero => exact List.mem_cons_self _ _
    | succ m => exact List.mem_cons_of_mem _ (ih (by simpa using h))

theorem list_ext_getD {α : Type} (d : α) :
    ∀ l₁ l₂ : List α, l₁.length = l₂.length →
      (∀ n, n < l₁.length → l₁.getD n d = l₂.getD n d) → l₁ = l₂ := by
  intro l₁
  induction l₁ with
  | nil => intro l₂ h _; exact (List.length_eq_zero.mp h.symm).symm
  | cons x xs ih =>
    intro l₂ h hget
    cases l₂ with
    | nil => simp at h
    | cons y ys =>
      have hx : x = y := hget 0 (by simp)
      have hxs : xs = ys := by
        refine ih ys (by simpa using h) (fun n hn => ?_)
        simpa using hget (n + 1) (by simpa using hn)
      rw [hx, hxs]

/-! ### Well-formed grids -/

/-- The grid is a `side × side` matrix. -/
def WfG (side : Nat) (g : Grid) : Prop :=
  g.length = side ∧ ∀ row ∈ g, row.length = side

/-- Every grid value is an owner in `[0, players]` (`0` = empty). -/
def GVals (players : Nat) (g : Grid) : Prop :=
  ∀ row ∈ g, ∀ v ∈ row, 0 ≤ v ∧ v ≤ (players : Int)

theorem gget_gset_self {side : Nat} {g : Grid} (hw : WfG side g) {r c : Int}
    (h : inB side r c) (v : Int) : gget (gset g r c v) r c = v := by
  obtain ⟨h1, h2, h3, h4⟩ := h
  unfold gget gset
  rw [if_pos ⟨h1, h3⟩, if_pos ⟨h1, h3⟩]
  have hr : r.toNat < g.length := by rw [hw.1]; omega
  rw [getD_set_self g r.toNat _ [] hr]
  refine getD_set_self _ c.toNat v 0 ?_
  have hmem : g.getD r.toNat [] ∈ g := getD_mem [] hr
  rw [hw.2 _ hmem]; omega

theorem gget_gset_ne (g : Grid) {r c r' c' : Int} (h : (r, c) ≠ (r', c')) (v : Int) :
    gget (gset g r c v) r' c' = gget g r' c' := by
  unfold gget gset
  by_cases h1 : 0 ≤ r ∧ 0 ≤ c
  · rw [if_pos h1]
    by_cases h2 : 0 ≤ r' ∧ 0 ≤ c'
    · rw [if_pos h2, if_pos h2]
      rcases eq_or_ne r r' with rfl | hrr
      · have hcc : c ≠ c' := fun hc => h (by rw [hc])
        by_cases hlen : r.toNat < g.length
        · rw [getD_set_self g r.toNat _ [] hlen]
          exact getD_set_ne _ c.toNat c'.toNat v 0 (fun hcn => hcc (by omega))
        · rw [set_of_length_le g r.toNat _ (by omega)]
      · have : r.toNat ≠ r'.toNat := by omega
        rw [getD_set_ne g r.toNat r'.toNat _ [] this]
    · rw [if_neg h2, if_neg h2]
  · rw [if_neg h1]

theorem WfG_gset {side : Nat} {g : Grid} (hw : WfG side g) (r c v : Int) :
    WfG side (gset g r c v) := by
  unfold gset
  split
  · by_cases hlen : r.toNat < g.length
    · constructor
      · simpa using hw.1
      · intro row hrow
        rcases mem_of_mem_set hrow with h | rfl
        · exact hw.2 _ h
        · rw [List.length_set]
          exact hw.2 _ (getD_mem [] hlen)
    · rw [set_of_length_le g r.toNat _ (by omega)]
      exact hw
  · exact hw

theorem GVals_gset {players : Nat} {g : Grid} (hv : GVals players g) (r c : Int) {v : Int}
    (h0 : 0 ≤ v) (h1 : v ≤ (players : Int)) : GVals players (gset g r c v) := by
  unfold gset
  split
  · intro row hrow
    rcases mem_of_mem_set hrow with h | rfl
    · exact hv _ h
    · intro w hw
      rcases mem_of_mem_set hw with h | rfl
      · by_cases hlen : r.toNat < g.length
        · exact hv _ (getD_mem [] hlen) _ h
        · rw [List.getD_eq_default _ _ (by omega)] at h
          simp at h
      · exact ⟨h0, h1⟩
  · exact hv

theorem grid_ext {side : Nat} {g₁ g₂ : Grid} (h₁ : WfG side g₁) (h₂ : WfG side g₂)
    (h : ∀ i j : Nat, i < side → j < side → gget g₁ (i : Int) (j : Int) = gget g₂ (i : Int) (j : Int)) :
    g₁ = g₂ := by
  refine list_ext_getD [] g₁ g₂ (by rw [h₁.1, h₂.1]) (fun n hn => ?_)
  have hn' : n < side := by rw [h₁.1] at hn; exact hn
  refine list_ext_getD 0 _ _ ?_ (fun m hm => ?_)
  · rw [h₁.2 _ (getD_mem [] hn), h₂.2 _ (getD_mem [] (by rw [h₂.1]; omega))]
  · have hm' : m < side := by
      rw [h₁.2 _ (getD_mem [] hn)] at hm; exact hm
    have := h n m hn' hm'
    unfold gget at this
    rw [if_pos ⟨Int.natCast_nonneg n, Int.natCast_nonneg m⟩] at this
    simpa using this

/-! ### Folded grid updates -/

/-- Apply a sequence of single-square writes, the written value a function of
the journal entry. -/
def gsetFold (f : ((Int × Int) × Int) → Int) (g : Grid) (J : List ((Int × Int) × Int)) : Grid :=
  J.foldl (fun h qp => gset h qp.1.1 qp.1.2 (f qp)) g

theorem gsetFold_append (f : ((Int × Int) × Int) → Int) (g : Grid)
    (J₁ J₂ : List ((Int × Int) × Int)) :
    gsetFold f g (J₁ ++ J₂) = gsetFold f (gsetFold f g J₁) J₂ := by
  unfold gsetFold
  exact List.foldl_append _ _ _ _

theorem gget_gsetFold_notmem (f : ((Int × Int) × Int) → Int) :
    ∀ (J : List ((Int × Int) × Int)) (g : Grid) (q : Int × Int), q ∉ J.map Prod.fst →
      gget (gsetFold f g J) q.1 q.2 = gget g q.1 q.2 := by
  intro J
  induction J with
  | nil => intro g q _; rfl
  | cons e rest ih =>
    intro g q hq
    rw [List.map_cons, List.mem_cons] at hq
    push_neg at hq
    have h1 : gget (gsetFold f (gset g e.1.1 e.1.2 (f e)) rest) q.1 q.2 =
        gget (gset g e.1.1 e.1.2 (f e)) q.1 q.2 := ih _ q hq.2
    have h2 : gget (gset g e.1.1 e.1.2 (f e)) q.1 q.2 = gget g q.1 q.2 := by
      refine gget_gset_ne g ?_ _
      intro hc
      rw [Prod.mk.injEq] at hc
      exact hq.1 (Prod.ext hc.1.symm hc.2.symm)
    exact h1.trans h2

theorem WfG_gsetFold (f : ((Int × Int) × Int) → Int) {side : Nat} :
    ∀ (J : List ((Int × Int) × Int)) (g : Grid), WfG side g → WfG side (gsetFold f g J) := by
  intro J
  induction J with
  | nil => intro g hg; exact hg
  | cons e rest ih => intro g hg; exact ih _ (WfG_gset hg _ _ _)

theorem GVals_gsetFold (f : ((Int × Int) × Int) → Int) {players : Nat} :
    ∀ (J : List ((Int × Int) × Int)) (g : Grid), GVals players g →
      (∀ e ∈ J, 0 ≤ f e ∧ f e ≤ (players : Int)) → GVals players (gsetFold f g J) := by
  intro J
  induction J with
  | nil => intro g hg _; exact hg
  | cons e rest ih =>
    intro g hg hf
    refine ih _ (GVals_gset hg _ _ (hf e (by simp)).1 (hf e (by simp)).2) ?_
    intro e' he'
    exact hf e' (List.mem_cons_of_mem _ he')

theorem gget_gsetFold_mem (f : ((Int × Int) × Int) → Int) {side : Nat} :
    ∀ (J : List ((Int × Int) × Int)) (g : Grid) (qp : (Int × Int) × Int),
      (J.map Prod.fst).Nodup → qp ∈ J → inB side qp.1.1 qp.1.2 → WfG side g →
      gget (gsetFold f g J) qp.1.1 qp.1.2 = f qp := by
  intro J
  induction J with
  | nil => intro g qp _ h; simp at h
  | cons e rest ih =>
    intro g qp hnd hmem hb hw
    rw [List.map_cons, List.nodup_cons] at hnd
    rcases List.mem_cons.mp hmem with rfl | hmem
    · have : gget (gsetFold f (gset g qp.1.1 qp.1.2 (f qp)) rest) qp.1.1 qp.1.2 =
          gget (gset g qp.1.1 qp.1.2 (f qp)) qp.1.1 qp.1.2 :=
        gget_gsetFold_notmem f rest _ qp.1 hnd.1
      rw [gsetFold, List.foldl_cons, ← gsetFold]
      rw [this, gget_gset_self hw hb]
    · rw [gsetFold, List.foldl_cons, ← gsetFold]
      exact ih _ qp hnd.2 hmem hb (WfG_gset hw _ _ _)

/-! ### Direction geometry -/

def rayPos (r c y x : Int) (k : Nat) : Int × Int := (r + (k : Int) * y, c + (k : Int) * x)

theorem dir_nonzero : ∀ d ∈ DIRECTION_LIST, d.1 ≠ 0 ∨ d.2 ≠ 0 := by decide

theorem rayPos_inj {y x : Int} (hd : y ≠ 0 ∨ x ≠ 0) {r c : Int} {k₁ k₂ : Nat}
    (h : rayPos r c y x k₁ = rayPos r c y x k₂) : k₁ = k₂ := by
  unfold rayPos at h
  have h1 := congrArg Prod.fst h
  have h2 := congrArg Prod.snd h
  simp only at h1 h2
  rcases hd with hy | hx
  · have : (k₁ : Int) * y = (k₂ : Int) * y := by omega
    have := mul_right_cancel₀ hy this
    exact_mod_cast this
  · have : (k₁ : Int) * x = (k₂ : Int) * x := by omega
    have := mul_right_cancel₀ hx this
    exact_mod_cast this

theorem ray_sep {d₁ d₂ : Int × Int} (h₁ : d₁ ∈ DIRECTION_LIST) (h₂ : d₂ ∈ DIRECTION_LIST)
    (hne : d₁ ≠ d₂) (r c : Int) (k₁ k₂ : Nat) :
    rayPos (r + d₁.1) (c + d₁.2) d₁.1 d₁.2 k₁ ≠ rayPos (r + d₂.1) (c + d₂.2) d₂.1 d₂.2 k₂ := by
  simp only [DIRECTION_LIST, List.mem_cons, List.not_mem_nil, or_false] at h₁ h₂
  unfold rayPos
  rcases h₁ with rfl | rfl | rfl | rfl | rfl | rfl | rfl | rfl <;>
    rcases h₂ with rfl | rfl | rfl | rfl | rfl | rfl | rfl | rfl <;>
      first
        | exact absurd rfl hne
        | (intro hEq
           have e1 := congrArg Prod.fst hEq
           have e2 := congrArg Prod.snd hEq
           simp only at e1 e2
           omega)

theorem ray_ne_start {d : Int × Int} (hd : d ∈ DIRECTION_LIST) (r c : Int) (k : Nat) :
    rayPos (r + d.1) (c + d.2) d.1 d.2 k ≠ (r, c) := by
  simp only [DIRECTION_LIST, List.mem_cons, List.not_mem_nil, or_false] at hd
  unfold rayPos
  rcases hd with rfl | rfl | rfl | rfl | rfl | rfl | rfl | rfl <;>
    (intro hEq
     have e1 := congrArg Prod.fst hEq
     have e2 := congrArg Prod.snd hEq
     simp only at e1 e2
     omega)

theorem rayPos_zero (r c y x : Int) : rayPos r c y x 0 = (r, c) := by
  simp [rayPos]

theorem rayPos_succ (r c y x : Int) (k : Nat) :
    rayPos (r + y) (c + x) y x k = rayPos r c y x (k + 1) := by
  unfold rayPos
  rw [Prod.mk.injEq]
  constructor <;> push_cast <;> ring

theorem rayPos_succ_ne_start {y x : Int} (hd : y ≠ 0 ∨ x ≠ 0) (r c : Int) (k : Nat) :
    rayPos r c y x (k + 1) ≠ (r, c) := by
  unfold rayPos
  intro h
  rw [Prod.mk.injEq] at h
  have hk : ((k + 1 : Nat) : Int) ≠ 0 := by push_cast; omega
  rcases hd with hy | hx
  · have h1 : ((k + 1 : Nat) : Int) * y = 0 := by linarith [h.1]
    rcases mul_eq_zero.mp h1 with h' | h'
    · exact hk h'
    · exact hy h'
  · have h1 : ((k + 1 : Nat) : Int) * x = 0 := by linarith [h.2]
    rcases mul_eq_zero.mp h1 with h' | h'
    · exact hk h'
    · exact hx h'

theorem range_succ_map {α : Type} (F : Nat → α) (m : Nat) :
    (List.range (m + 1)).map F = F 0 :: (List.range m).map (fun k => F (k + 1)) := by
  rw [List.range_succ_eq_map, List.map_cons, List.map_map]
  rfl

/-- Specification of a successful flip walk: the journal is exactly the ray of
squares from the start up to (excluding) the stopping square, each recorded
with its pre-walk owner (non-empty, not the mover), and the resulting grid is
the fold writing the mover's value over those squares. -/
theorem flipRay_spec (side turn : Nat) (y x : Int) (hd : y ≠ 0 ∨ x ≠ 0) :
    ∀ (fuel : Nat) (g : Grid) (r c : Int) (gr : Grid) (J : List ((Int × Int) × Int)),
      flipRay side turn fuel g r c y x = ((gr, J), none) →
      ∃ m : Nat,
        J = (List.range m).map (fun k =>
          (rayPos r c y x k, gget g (rayPos r c y x k).1 (rayPos r c y x k).2)) ∧
        (∀ k : Nat, k < m →
           inB side (rayPos r c y x k).1 (rayPos r c y x k).2 ∧
           gget g (rayPos r c y x k).1 (rayPos r c y x k).2 ≠ 0 ∧
           gget g (rayPos r c y x k).1 (rayPos r c y x k).2 ≠ (turn : Int)) ∧
        gr = gsetFold (fun _ => (turn : Int)) g J := by
  intro fuel
  induction fuel with
  | zero =>
    intro g r c gr J h
    exact absurd (congrArg Prod.snd h) (by simp [flipRay])
  | succ fuel ih =>
    intro g r c gr J h
    rw [flipRay] at h
    split at h
    · rename_i hcond
      split at h
      · rename_i hnz
        dsimp only at h
        rcases hFR : flipRay side turn fuel (gset g r c (turn : Int)) (r + y) (c + x) y x
          with ⟨⟨gr2, J2⟩, e⟩
        rw [hFR] at h
        have hgr : gr2 = gr := congrArg (fun p => p.1.1) h
        have hJ : ((r, c), gget g r c) :: J2 = J := congrArg (fun p => p.1.2) h
        have he : e = none := congrArg Prod.snd h
        obtain ⟨m2, hJ2, hcnd2, hgr2⟩ :=
          ih (gset g r c (turn : Int)) (r + y) (c + x) gr2 J2 (by rw [hFR, he])
        refine ⟨m2 + 1, ?_, ?_, ?_⟩
        · rw [← hJ, range_succ_map]
          refine congrArg₂ List.cons ?_ ?_
          · simp [rayPos_zero]
          · rw [hJ2]
            refine List.map_congr_left (fun k _ => ?_)
            dsimp only
            rw [rayPos_succ]
            have hne2 : (r, c) ≠ ((rayPos r c y x (k + 1)).1, (rayPos r c y x (k + 1)).2) := by
              rw [Prod.mk.eta]
              exact fun hc => (rayPos_succ_ne_start hd r c k) hc.symm
            rw [gget_gset_ne g hne2]
        · intro k hk
          cases k with
          | zero =>
            rw [rayPos_zero]
            exact ⟨hcond.1, hnz, hcond.2⟩
          | succ k2 =>
            have hk2 : k2 < m2 := by omega
            have hstep := hcnd2 k2 hk2
            rw [rayPos_succ] at hstep
            have hne2 : (r, c) ≠ ((rayPos r c y x (k2 + 1)).1, (rayPos r c y x (k2 + 1)).2) := by
              rw [Prod.mk.eta]
              exact fun hc => (rayPos_succ_ne_start hd r c k2) hc.symm
            rwa [gget_gset_ne g hne2] at hstep
        · rw [← hJ, ← hgr, hgr2]
          rfl
      · exact absurd (congrArg Prod.snd h) (by simp)
    · have hgr : g = gr := congrArg (fun p => p.1.1) h
      have hJ : ([] : List ((Int × Int) × Int)) = J := congrArg (fun p => p.1.2) h
      exact ⟨0, by simp [← hJ], by omega, by rw [← hJ, ← hgr]; rfl⟩

/-- Specification of a successful pass over the direction list in
`apply_move`: the combined journal records pairwise-distinct on-board ray
squares (each lying on the ray of one of the processed directions), each with
its pre-move owner, which is neither empty nor the mover; the resulting grid
writes the mover over exactly those squares. -/
theorem flipDirs_spec (side turn : Nat) (md : MoveDict) (pos : Int × Int) :
    ∀ (dirs : List (Int × Int)) (g gr : Grid) (J : List ((Int × Int) × Int)),
      dirs.Nodup → (∀ d ∈ dirs, d ∈ DIRECTION_LIST) →
      flipDirs side turn md pos dirs g = ((gr, J), none) →
      (∀ qp ∈ J,
         (∃ d ∈ dirs, ∃ k : Nat, qp.1 = rayPos (pos.1 + d.1) (pos.2 + d.2) d.1 d.2 k) ∧
         inB side qp.1.1 qp.1.2 ∧ qp.2 = gget g qp.1.1 qp.1.2 ∧ qp.2 ≠ 0 ∧
         qp.2 ≠ (turn : Int)) ∧
      (J.map Prod.fst).Nodup ∧
      gr = gsetFold (fun _ => (turn : Int)) g J := by
  intro dirs
  induction dirs with
  | nil =>
    intro g gr J _ _ h
    rw [flipDirs] at h
    have hgr : g = gr := congrArg (fun p => p.1.1) h
    have hJ : ([] : List ((Int × Int) × Int)) = J := congrArg (fun p => p.1.2) h
    exact ⟨by rw [← hJ]; intro qp hqp; simp at hqp, by rw [← hJ]; simp,
      by rw [← hJ, ← hgr]; rfl⟩
  | cons d rest ih =>
    intro g gr J hnd hDL h
    have hdDL : d ∈ DIRECTION_LIST := hDL d (by simp)
    have hdnz : d.1 ≠ 0 ∨ d.2 ≠ 0 := dir_nonzero d hdDL
    rw [flipDirs] at h
    split at h
    · dsimp only at h
      rcases hFR : flipRay side turn (side + 1) g (pos.1 + d.1) (pos.2 + d.2) d.1 d.2
        with ⟨⟨g1, J1⟩, e1⟩
      rw [hFR] at h
      split at h
      · exact absurd (congrArg Prod.snd h) (by simp)
      · rename_i e1' he1
        dsimp only at h
        rcases hMR : flipDirs side turn md pos rest g1 with ⟨⟨g2, J2⟩, e2⟩
        rw [hMR] at h
        have hgr : g2 = gr := congrArg (fun p => p.1.1) h
        have hJ : J1 ++ J2 = J := congrArg (fun p => p.1.2) h
        have he2 : e2 = none := congrArg Prod.snd h
        have he1n : e1 = none := by
          have : (⟨⟨g1, J1⟩, e1⟩ : (Grid × List ((Int × Int) × Int)) × Option String).2 = none := by
            rw [he1]
          exact this
        obtain ⟨m, hJ1, hcnd1, hg1⟩ :=
          flipRay_spec side turn d.1 d.2 hdnz (side + 1) g (pos.1 + d.1) (pos.2 + d.2) g1 J1
            (by rw [hFR, he1n])
        obtain ⟨hmem2, hnd2, hg2⟩ :=
          ih g1 g2 J2 (List.Nodup.of_cons hnd) (fun d' hd' => hDL d' (List.mem_cons_of_mem _ hd'))
            (by rw [hMR, he2])
        have hmapJ1 : J1.map Prod.fst =
            (List.range m).map (fun k => rayPos (pos.1 + d.1) (pos.2 + d.2) d.1 d.2 k) := by
          rw [hJ1, List.map_map]
          rfl
        -- a square of the rest-journal never lies on the ray of `d`
        have hJ2way : ∀ qp ∈ J2, qp.1 ∉ J1.map Prod.fst := by
          intro qp hqp
          obtain ⟨⟨d', hd', k', hk'⟩, _, _, _, _⟩ := hmem2 qp hqp
          rw [hmapJ1]
          intro hmem
          obtain ⟨k, _, hkeq⟩ := List.mem_map.mp hmem
          have hdne : d ≠ d' := by
            rintro rfl
            exact (List.nodup_cons.mp hnd).1 hd'
          exact ray_sep hdDL (hDL d' (List.mem_cons_of_mem _ hd')) hdne pos.1 pos.2 k k'
            (hkeq.trans hk')
        refine ⟨?_, ?_, ?_⟩
        · intro qp hqp
          rcases List.mem_append.mp (hJ ▸ hqp : qp ∈ J1 ++ J2) with hq1 | hq2
          · rw [hJ1] at hq1
            obtain ⟨k, hkr, hkeq⟩ := List.mem_map.mp hq1
            have hk : k < m := List.mem_range.mp hkr
            obtain ⟨hb, hz, ht⟩ := hcnd1 k hk
            cases hkeq
            exact ⟨⟨d, by simp, k, rfl⟩, hb, rfl, hz, ht⟩
          · obtain ⟨hray, hb, hval, hz, ht⟩ := hmem2 qp hq2
            refine ⟨?_, hb, ?_, hz, ht⟩
            · obtain ⟨d', hd', hk⟩ := hray
              exact ⟨d', List.mem_cons_of_mem _ hd', hk⟩
            · rw [hval, hg1]
              exact gget_gsetFold_notmem _ J1 g qp.1 (hJ2way qp hq2)
        · rw [← hJ, List.map_append]
          rw [List.nodup_append]
          refine ⟨?_, hnd2, ?_⟩
          · rw [hmapJ1]
            refine List.Nodup.map ?_ (List.nodup_range m)
            intro k1 k2 hk
            exact rayPos_inj hdnz hk
          · intro q hq1 hq2
            obtain ⟨qp, hqp, hqpe⟩ := List.mem_map.mp hq2
            exact (hJ2way qp hqp) (hqpe ▸ hq1)
        · rw [← hJ, ← hgr, hg2, hg1, gsetFold_append]
    · obtain ⟨hmem2, hnd2, hg2⟩ :=
        ih g gr J (List.Nodup.of_cons hnd)
          (fun d' hd' => hDL d' (List.mem_cons_of_mem _ hd')) h
      refine ⟨?_, hnd2, hg2⟩
      intro qp hqp
      obtain ⟨⟨d', hd', hk⟩, hb, hval, hz, ht⟩ := hmem2 qp hqp
      exact ⟨⟨d', List.mem_cons_of_mem _ hd', hk⟩, hb, hval, hz, ht⟩

theorem gget_gset_ne' (g : Grid) {p q : Int × Int} (h : p ≠ q) (v : Int) :
    gget (gset g p.1 p.2 v) q.1 q.2 = gget g q.1 q.2 := by
  refine gget_gset_ne g ?_ v
  intro hc
  rw [Prod.mk.injEq] at hc
  exact h (Prod.ext hc.1 hc.2)

/-- A rollback restore pass succeeds and equals the value-fold whenever the
journal squares are on the board, pairwise distinct, carry positive recorded
owners, and are currently occupied. -/
theorem restore_spec {side : Nat} :
    ∀ (J : List ((Int × Int) × Int)) (g : Grid),
      WfG side g →
      (∀ qp ∈ J, inB side qp.1.1 qp.1.2 ∧ 0 < qp.2 ∧ gget g qp.1.1 qp.1.2 ≠ 0) →
      (J.map Prod.fst).Nodup →
      restoreSquares g J = (gsetFold (fun qp => qp.2) g J, none) := by
  intro J
  induction J with
  | nil => intro g _ _ _; rfl
  | cons e rest ih =>
    intro g hw hcnd hnd
    obtain ⟨⟨a, b⟩, p⟩ := e
    obtain ⟨hb, hp, hnz⟩ := hcnd _ (List.mem_cons_self _ _)
    rw [List.map_cons, List.nodup_cons] at hnd
    rw [restoreSquares, if_pos hp, if_pos hnz]
    have hrest : ∀ qp ∈ rest, inB side qp.1.1 qp.1.2 ∧ 0 < qp.2 ∧
        gget (gset g a b p) qp.1.1 qp.1.2 ≠ 0 := by
      intro qp hqp
      obtain ⟨hb', hp', hnz'⟩ := hcnd qp (List.mem_cons_of_mem _ hqp)
      refine ⟨hb', hp', ?_⟩
      have hne : ((a, b) : Int × Int) ≠ qp.1 := by
        intro hc
        apply hnd.1
        rw [hc]
        exact List.mem_map.mpr ⟨qp, hqp, rfl⟩
      have : gget (gset g a b p) qp.1.1 qp.1.2 = gget g qp.1.1 qp.1.2 :=
        gget_gset_ne' g hne p
      rw [this]
      exact hnz'
    rw [ih (gset g a b p) (WfG_gset hw _ _ _) hrest hnd.2]
    rfl

theorem DIRECTION_LIST_nodup : DIRECTION_LIST.Nodup := by decide

theorem end_game_side (s : Reversi) : (end_game s).side = s.side := rfl

theorem end_game_players (s : Reversi) : (end_game s).players = s.players := rfl

theorem end_game_outcome (s : Reversi) : (end_game s).outcome =
    ((List.range' 1 s.players).foldl (egStep (countPieces s.grid)) (s.outcome, 0)).1 := rfl

theorem skip_turn_turn (s : Reversi) :
    (skip_turn s).turn = if s.turn < s.players then s.turn + 1 else 1 := by
  unfold skip_turn
  split <;> rfl

/-- Anatomy of a successful `apply_move`: the position is on the board; there
is a flip journal `J` of pairwise-distinct on-board squares other than `pos`,
each recorded with its pre-move owner (non-empty, not the mover); the new grid
writes the mover at `pos` and over the journal squares; the history gets the
new record appended; and either no terminal check fired (turn advanced by
`skip_turn`, `done`/`outcome` untouched) or `end_game` ran. -/
theorem apply_move_spec (s t : Reversi) (pos : Int × Int) (h : apply_move s pos = (t, none)) :
    inB s.side pos.1 pos.2 ∧
    ∃ J : List ((Int × Int) × Int),
      (∀ qp ∈ J, inB s.side qp.1.1 qp.1.2 ∧ qp.1 ≠ pos ∧
         qp.2 = gget s.grid qp.1.1 qp.1.2 ∧ qp.2 ≠ 0 ∧ qp.2 ≠ (s.turn : Int)) ∧
      (J.map Prod.fst).Nodup ∧ pos ∉ J.map Prod.fst ∧
      t.grid = gsetFold (fun _ => (s.turn : Int)) (gset s.grid pos.1 pos.2 (s.turn : Int)) J ∧
      t.moves = s.moves ++ [(s.turn, (pos, 0) :: J)] ∧
      t.side = s.side ∧ t.players = s.players ∧
      ((t.done = s.done ∧ t.outcome = s.outcome ∧
          t.turn = (if s.turn < s.players then s.turn + 1 else 1)) ∨
       (t.done = true ∧ t.turn = 1 ∧
          t.outcome = ((List.range' 1 s.players).foldl
            (egStep (countPieces t.grid)) (s.outcome, 0)).1)) := by
  unfold apply_move at h
  split at h
  · exact absurd (congrArg Prod.snd h) (by simp)
  · rename_i hbp
    rw [not_not] at hbp
    refine ⟨hbp, ?_⟩
    dsimp only at h
    rcases hFD : flipDirs (find_moves s).2.side (find_moves s).2.turn (find_moves s).1 pos
        DIRECTION_LIST (gset (find_moves s).2.grid pos.1 pos.2 ((find_moves s).2.turn : Int))
      with ⟨⟨gF, JF⟩, eF⟩
    rw [hFD] at h
    dsimp only at h
    split at h
    · exact absurd (congrArg Prod.snd h) (by simp)
    · obtain ⟨hmem, hnd, hgrid⟩ := flipDirs_spec (find_moves s).2.side (find_moves s).2.turn
        (find_moves s).1 pos DIRECTION_LIST
        (gset (find_moves s).2.grid pos.1 pos.2 ((find_moves s).2.turn : Int)) gF JF
        DIRECTION_LIST_nodup (fun d hd => hd) (by rw [hFD])
      rw [find_moves_side] at hmem
      rw [find_moves_grid, find_moves_turn] at hmem hgrid
      have hqp : ∀ qp ∈ JF, inB s.side qp.1.1 qp.1.2 ∧ qp.1 ≠ pos ∧
          qp.2 = gget s.grid qp.1.1 qp.1.2 ∧ qp.2 ≠ 0 ∧ qp.2 ≠ (s.turn : Int) := by
        intro qp hqp
        obtain ⟨⟨d, hd, k, hk⟩, hb, hval, hz, ht⟩ := hmem qp hqp
        have hne : qp.1 ≠ pos := by
          rw [hk]
          intro hc
          exact ray_ne_start hd pos.1 pos.2 k (by rw [hc])
        refine ⟨hb, hne, ?_, hz, ht⟩
        rw [hval]
        exact gget_gset_ne' s.grid (fun hc => hne hc.symm) _
      have hposnot : pos ∉ JF.map Prod.fst := by
        intro hp
        obtain ⟨qp, hqpm, hqe⟩ := List.mem_map.mp hp
        exact (hqp qp hqpm).2.1 hqe
      split at h
      · have ht : t = end_game (skip_turn _) := (Prod.ext_iff.mp h).1.symm
        have htg : t.grid = gF := by rw [ht, end_game_grid, skip_turn_grid]
        refine ⟨JF, hqp, hnd, hposnot, ?_, ?_, ?_, ?_, Or.inr ⟨?_, ?_, ?_⟩⟩
        · rw [htg]
          exact hgrid
        · rw [ht, end_game_moves, skip_turn_moves]
          dsimp only
          rw [find_moves_moves, find_moves_turn]
        · rw [ht, end_game_side, skip_turn_side]
          dsimp only
          exact find_moves_side s
        · rw [ht, end_game_players, skip_turn_players]
          dsimp only
          exact find_moves_players s
        · rw [ht]
          exact end_game_done _
        · rw [ht]
          exact end_game_turn _
        · rw [htg, ht, end_game_outcome, skip_turn_players, skip_turn_grid, skip_turn_outcome]
          dsimp only
          rw [find_moves_players, find_moves_outcome]
      · have ht : t = skip_turn _ := (Prod.ext_iff.mp h).1.symm
        refine ⟨JF, hqp, hnd, hposnot, ?_, ?_, ?_, ?_, Or.inl ⟨?_, ?_, ?_⟩⟩
        · rw [ht, skip_turn_grid]
          dsimp only
          exact hgrid
        · rw [ht, skip_turn_moves]
          dsimp only
          rw [find_moves_moves, find_moves_turn]
        · rw [ht, skip_turn_side]
          dsimp only
          exact find_moves_side s
        · rw [ht, skip_turn_players]
          dsimp only
          exact find_moves_players s
        · rw [ht, skip_turn_done]
          dsimp only
          exact find_moves_done s
        · rw [ht, skip_turn_outcome]
          dsimp only
          exact find_moves_outcome s
        · rw [ht, skip_turn_turn]
          dsimp only
          rw [find_moves_turn, find_moves_players]

/-! ### Properties of the move dictionary and `available_moves` -/

theorem mem_availInsert (acc : List (Int × Int)) (a x : Int × Int) :
    x ∈ availInsert acc a ↔ x ∈ acc ∨ x = a := by
  unfold availInsert
  split
  · rename_i h
    constructor
    · exact Or.inl
    · rintro (hx | rfl)
      · exact hx
      · exact h
  · simp

theorem mem_foldl_availInsert :
    ∀ (L : List (Int × Int)) (acc : List (Int × Int)) (x : Int × Int),
      x ∈ L.foldl availInsert acc ↔ x ∈ acc ∨ x ∈ L := by
  intro L
  induction L with
  | nil => simp
  | cons a L ih =>
    intro acc x
    rw [List.foldl_cons, ih, mem_availInsert]
    simp only [List.mem_cons]
    tauto

theorem avail_mem_entry {s : Reversi} {pos : Int × Int}
    (h : pos ∈ (available_moves s).1) : ∃ e ∈ (find_moves s).1, pos ∈ e.2 := by
  unfold available_moves at h
  dsimp only at h
  rw [mem_foldl_availInsert] at h
  rcases h with h | h
  · simp at h
  · rw [List.mem_flatten] at h
    obtain ⟨l, hl, hx⟩ := h
    obtain ⟨e, he, rfl⟩ := List.mem_map.mp hl
    exact ⟨e, he, hx⟩

/-- A position stored in no value list of the dictionary is found under no
key. -/
theorem not_mem_dictFind {pos : Int × Int} :
    ∀ md : MoveDict, (∀ e ∈ md, pos ∉ e.2) → ∀ k, pos ∉ dictFind md k := by
  intro md
  induction md with
  | nil =>
    intro _ k
    simp [dictFind]
  | cons e rest ih =>
    intro h k
    obtain ⟨k', l⟩ := e
    rw [dictFind]
    split
    · exact h (k', l) (List.mem_cons_self _ _)
    · exact ih (fun e' he' => h e' (List.mem_cons_of_mem _ he')) k

/-- If the placed position is found under no dictionary key, the flip loop of
`apply_move` is a no-op: the grid is untouched, the journal is empty and
nothing is raised. -/
theorem flipDirs_notmem (side turn : Nat) (md : MoveDict) (pos : Int × Int)
    (h : ∀ k, pos ∉ dictFind md k) :
    ∀ (L : List (Int × Int)) (g : Grid), flipDirs side turn md pos L g = ((g, []), none) := by
  intro L
  induction L with
  | nil =>
    intro g
    rfl
  | cons d rest ih =>
    intro g
    rw [flipDirs, if_neg (h d)]
    exact ih g

/-- C3 amended: `apply_move` performs no legality check at all.  From any
state, calling it with an on-board position outside `available_moves` raises
no error and silently mutates the state: the mover's piece lands at `pos`,
every other square keeps its value (no captures), the history gets the record
`(turn, [(pos, 0)])` appended, and the turn and `done` flag then undergo the
ordinary post-move processing (one `skip_turn`, or `end_game` — which sets
`done` and resets the turn to 1 — when the terminal check fires); the state is
never left unchanged. -/
theorem c3_illegal_move_behavior (s : Reversi) (pos : Int × Int)
    (hin : inB s.side pos.1 pos.2)
    (hav : pos ∉ (available_moves s).1) :
    (apply_move s pos).2 = none ∧
    (apply_move s pos).1.grid = gset s.grid pos.1 pos.2 (s.turn : Int) ∧
    (∀ i j : Int, (i, j) ≠ pos → gget (apply_move s pos).1.grid i j = gget s.grid i j) ∧
    (apply_move s pos).1.moves = s.moves ++ [(s.turn, [(pos, 0)])] ∧
    ((apply_move s pos).1.done = s.done ∧
       (apply_move s pos).1.turn = (if s.turn < s.players then s.turn + 1 else 1) ∨
     (apply_move s pos).1.done = true ∧ (apply_move s pos).1.turn = 1) ∧
    (apply_move s pos).1 ≠ s := by
  have hnd : ∀ k, pos ∉ dictFind (find_moves s).1 k := by
    refine not_mem_dictFind (find_moves s).1 ?_
    intro e he hpe
    apply hav
    unfold available_moves
    dsimp only
    rw [mem_foldl_availInsert]
    exact Or.inr (List.mem_flatten.mpr ⟨e.2, List.mem_map.mpr ⟨e, he, rfl⟩, hpe⟩)
  rcases happ : apply_move s pos with ⟨t, err⟩
  have happ' := happ
  unfold apply_move at happ'
  rw [if_neg (not_not_intro hin)] at happ'
  dsimp only at happ'
  rw [flipDirs_notmem _ _ _ _ hnd _ _] at happ'
  dsimp only at happ'
  split at happ'
  · have ht : t = end_game (skip_turn _) := (Prod.ext_iff.mp happ').1.symm
    have herr : err = none := (Prod.ext_iff.mp happ').2.symm
    have hgrid : t.grid = gset s.grid pos.1 pos.2 (s.turn : Int) := by
      rw [ht, end_game_grid, skip_turn_grid]
      dsimp only
      rw [find_moves_grid, find_moves_turn]
    have hmv : t.moves = s.moves ++ [(s.turn, [(pos, 0)])] := by
      rw [ht, end_game_moves, skip_turn_moves]
      dsimp only
      rw [find_moves_moves, find_moves_turn]
    refine ⟨herr, hgrid, ?_, hmv,
      Or.inr ⟨by rw [ht]; exact end_game_done _, by rw [ht]; exact end_game_turn _⟩, ?_⟩
    · intro i j hne
      rw [hgrid]
      refine gget_gset_ne s.grid ?_ _
      intro hc
      apply hne
      rw [← hc]
    · intro hc
      have hts : t = s := hc
      rw [hts] at hmv
      have hlen := congrArg List.length hmv
      rw [List.length_append] at hlen
      simp at hlen
  · have ht : t = skip_turn _ := (Prod.ext_iff.mp happ').1.symm
    have herr : err = none := (Prod.ext_iff.mp happ').2.symm
    have hgrid : t.grid = gset s.grid pos.1 pos.2 (s.turn : Int) := by
      rw [ht, skip_turn_grid]
      dsimp only
      rw [find_moves_grid, find_moves_turn]
    have hmv : t.moves = s.moves ++ [(s.turn, [(pos, 0)])] := by
      rw [ht, skip_turn_moves]
      dsimp only
      rw [find_moves_moves, find_moves_turn]
    have hdone : t.done = s.done := by
      rw [ht, skip_turn_done]
      dsimp only
      exact find_moves_done s
    have hturn : t.turn = (if s.turn < s.players then s.turn + 1 else 1) := by
      rw [ht, skip_turn_turn]
      dsimp only
      rw [find_moves_turn, find_moves_players]
    refine ⟨herr, hgrid, ?_, hmv, Or.inl ⟨hdone, hturn⟩, ?_⟩
    · intro i j hne
      rw [hgrid]
      refine gget_gset_ne s.grid ?_ _
      intro hc
      apply hne
      rw [← hc]
    · intro hc
      have hts : t = s := hc
      rw [hts] at hmv
      have hlen := congrArg List.length hmv
      rw [List.length_append] at hlen
      simp at hlen

/-- C3 witness: the Scenario B instance.  `(3,5)` is on the 8×8 board and not
an available move of the fresh Othello position; `apply_move scenarioA (3,5)`
raises nothing, places player 1's piece at `(3,5)` with every other square
unchanged, appends the history record, mutates the state, and the turn ends up
at player 2. -/
theorem c3_illegal_move_behavior_witness :
    inB scenarioA.side 3 5 ∧
    ((3 : Int), (5 : Int)) ∉ (available_moves scenarioA).1 ∧
    ((apply_move scenarioA (3, 5)).2 = none ∧
     (apply_move scenarioA (3, 5)).1.grid =
       gset scenarioA.grid 3 5 (scenarioA.turn : Int) ∧
     (∀ i j : Int, (i, j) ≠ ((3 : Int), (5 : Int)) →
        gget (apply_move scenarioA (3, 5)).1.grid i j = gget scenarioA.grid i j) ∧
     (apply_move scenarioA (3, 5)).1.moves =
       scenarioA.moves ++ [(scenarioA.turn, [(((3 : Int), (5 : Int)), 0)])] ∧
     ((apply_move scenarioA (3, 5)).1.done = scenarioA.done ∧
        (apply_move scenarioA (3, 5)).1.turn =
          (if scenarioA.turn < scenarioA.players then scenarioA.turn + 1 else 1) ∨
      (apply_move scenarioA (3, 5)).1.done = true ∧
        (apply_move scenarioA (3, 5)).1.turn = 1) ∧
     (apply_move scenarioA (3, 5)).1 ≠ scenarioA) ∧
    (apply_move scenarioA (3, 5)).1.turn = 2 :=
  ⟨by decide, by decide,
   c3_illegal_move_behavior scenarioA (3, 5) (by decide) (by decide),
   by decide⟩

theorem dictAdd_entry {P : (Int × Int) → Prop} :
    ∀ (d : MoveDict) (k v : Int × Int), (∀ e ∈ d, ∀ q ∈ e.2, P q) → P v →
      ∀ e ∈ dictAdd d k v, ∀ q ∈ e.2, P q := by
  intro d
  induction d with
  | nil =>
    intro k v _ hv e he q hq
    rw [dictAdd] at he
    rcases List.mem_singleton.mp he with rfl
    rcases List.mem_singleton.mp hq with rfl
    exact hv
  | cons e0 rest ih =>
    intro k v hd hv e he q hq
    obtain ⟨k0, l0⟩ := e0
    rw [dictAdd] at he
    split at he
    · rcases List.mem_cons.mp he with rfl | he
      · rcases List.mem_append.mp hq with hq | hq
        · exact hd _ (List.mem_cons_self _ _) _ hq
        · rcases List.mem_singleton.mp hq with rfl
          exact hv
      · exact hd _ (List.mem_cons_of_mem _ he) _ hq
    · rcases List.mem_cons.mp he with rfl | he
      · exact hd _ (List.mem_cons_self _ _) _ hq
      · exact ih k v (fun e' he' => hd e' (List.mem_cons_of_mem _ he')) hv e he q hq

theorem foldl_dict_pres {α : Type} (f : MoveDict → α → MoveDict) (P : (Int × Int) → Prop)
    (hf : ∀ md a, (∀ e ∈ md, ∀ q ∈ e.2, P q) → ∀ e ∈ f md a, ∀ q ∈ e.2, P q) :
    ∀ (L : List α) (md : MoveDict), (∀ e ∈ md, ∀ q ∈ e.2, P q) →
      ∀ e ∈ L.foldl f md, ∀ q ∈ e.2, P q := by
  intro L
  induction L with
  | nil => intro md hmd; exact hmd
  | cons a L ih => intro md hmd; exact ih (f md a) (hf md a hmd)

theorem mem_intRange {lo hi z : Int} (h : z ∈ intRange lo hi) : lo ≤ z ∧ z < hi := by
  unfold intRange at h
  rcases List.mem_map.mp h with ⟨i, hi, rfl⟩
  rw [List.mem_range] at hi
  omega

theorem openingZone_inB (s : Reversi) (h2 : 2 ≤ s.players) (hps : s.players < s.side)
    (hpar : s.side % 2 = s.players % 2) : ∀ p ∈ openingZone s, inB s.side p.1 p.2 := by
  intro p hp
  unfold openingZone at hp
  rw [List.mem_flatMap] at hp
  obtain ⟨r, hr, hp⟩ := hp
  obtain ⟨c, hc, rfl⟩ := List.mem_map.mp hp
  obtain ⟨hr1, hr2⟩ := mem_intRange hr
  obtain ⟨hc1, hc2⟩ := mem_intRange hc
  have hS : (2 : Int) ≤ (s.players : Int) := by exact_mod_cast h2
  have hPS : (s.players : Int) < (s.side : Int) := by exact_mod_cast hps
  have hpar' : (s.side : Int) % 2 = (s.players : Int) % 2 := by
    have : ((s.side % 2 : Nat) : Int) = ((s.players % 2 : Nat) : Int) := by exact_mod_cast hpar
    push_cast at this
    omega
  refine ⟨?_, ?_, ?_, ?_⟩ <;> dsimp only <;> omega

/-- Every position stored in the dictionary built by `find_moves` is an empty
on-board square (under the constructor-validated parameter constraints, which
make the opening zone lie inside the board). -/
theorem find_moves_entry_prop (s : Reversi) (h2 : 2 ≤ s.players) (hps : s.players < s.side)
    (hpar : s.side % 2 = s.players % 2) :
    ∀ e ∈ (find_moves s).1, ∀ q ∈ e.2, inB s.side q.1 q.2 ∧ gget s.grid q.1 q.2 = 0 := by
  have hnormal : ∀ md₁ : MoveDict,
      (∀ e ∈ md₁, ∀ q ∈ e.2, inB s.side q.1 q.2 ∧ gget s.grid q.1 q.2 = 0) →
      ∀ e ∈ normalMoves s md₁, ∀ q ∈ e.2, inB s.side q.1 q.2 ∧ gget s.grid q.1 q.2 = 0 := by
    intro md₁ hmd₁
    refine foldl_dict_pres _ _ ?_ _ _ hmd₁
    intro md pp hmd
    dsimp only
    split
    · refine foldl_dict_pres _ _ ?_ _ _ hmd
      intro md2 dir hmd2
      dsimp only
      split
      · rename_i hcond
        exact dictAdd_entry md2 dir _ hmd2 ⟨hcond.1, hcond.2.1⟩
      · exact hmd2
    · exact hmd
  unfold find_moves
  split
  · intro e he; simp at he
  · dsimp only
    split
    · have hzone : ∀ e ∈ (List.filter (fun p => decide (gget s.grid p.1 p.2 = 0))
          (openingZone s)).map (fun p : Int × Int => (p, [p])),
          ∀ q ∈ e.2, inB s.side q.1 q.2 ∧ gget s.grid q.1 q.2 = 0 := by
        intro e he q hq
        obtain ⟨p, hp, rfl⟩ := List.mem_map.mp he
        rcases List.mem_singleton.mp hq with rfl
        obtain ⟨hpz, hpe⟩ := List.mem_filter.mp hp
        exact ⟨openingZone_inB s h2 hps hpar q hpz, by simpa using hpe⟩
      split
      · exact hzone
      · exact hnormal _ hzone
    · simp only [List.map_nil]
      split
      · intro e he; simp at he
      · exact hnormal _ (fun e he => by simp at he)

/-! ### Winner computation -/

/-- The maximum piece count over players `1..players`. -/
def maxCount (s : Reversi) : Nat :=
  ((List.range' 1 s.players).map (countPieces s.grid)).foldr max 0

/-- The players achieving the maximum piece count (the spec's outcome set). -/
def winners (s : Reversi) : List Nat :=
  (List.range' 1 s.players).filter (fun p => countPieces s.grid p = maxCount s)

theorem le_foldr_max (l : List Nat) : ∀ x ∈ l, x ≤ l.foldr max 0 := by
  induction l with
  | nil => simp
  | cons a l ih =>
    intro x hx
    rcases List.mem_cons.mp hx with rfl | hx
    · exact le_max_left _ _
    · exact le_trans (ih x hx) (le_max_right _ _)

theorem foldr_max_attained (l : List Nat) : l.foldr max 0 = 0 ∨ l.foldr max 0 ∈ l := by
  induction l with
  | nil => exact Or.inl rfl
  | cons a l ih =>
    rw [List.foldr_cons]
    rcases Nat.le_total a (l.foldr max 0) with h | h
    · rw [max_eq_right h]
      rcases ih with h0 | hm
      · exact Or.inl h0
      · exact Or.inr (List.mem_cons_of_mem _ hm)
    · rw [max_eq_left h]
      exact Or.inr (List.mem_cons_self _ _)

/-- Full characterisation of the winner-scan fold in `end_game`, starting from
an accumulator whose members all achieve the running maximum. -/
theorem egFold (cnt : Nat → Nat) :
    ∀ (L : List Nat) (out : List Nat) (hi : Nat), (∀ p ∈ out, cnt p = hi) →
      L.foldl (egStep cnt) (out, hi) =
        (if (L.map cnt).foldr max 0 ≤ hi then out ++ L.filter (fun p => cnt p = hi)
         else L.filter (fun p => cnt p = (L.map cnt).foldr max 0),
         max hi ((L.map cnt).foldr max 0)) := by
  intro L
  induction L with
  | nil =>
    intro out hi hout
    simp
  | cons a L ih =>
    intro out hi hout
    rw [List.foldl_cons]
    have hstep : egStep cnt (out, hi) a =
        if hi < cnt a then ([a], cnt a)
        else if cnt a = hi then (out ++ [a], hi) else (out, hi) := rfl
    rw [hstep]
    simp only [List.map_cons, List.foldr_cons, List.filter_cons, decide_eq_true_eq]
    by_cases h1 : hi < cnt a
    · rw [if_pos h1,
        ih [a] (cnt a) (fun p hp => by rcases List.mem_singleton.mp hp with rfl; rfl)]
      by_cases h2 : (L.map cnt).foldr max 0 ≤ cnt a
      · rw [if_pos h2, if_neg (by omega), if_pos (by omega)]
        have hmax : cnt a ⊔ (L.map cnt).foldr max 0 = cnt a := by omega
        simp only [hmax, Prod.mk.injEq]
        all_goals exact ⟨by trivial, by omega⟩
      · rw [if_neg h2, if_neg (by omega), if_neg (by omega)]
        have hmax : cnt a ⊔ (L.map cnt).foldr max 0 = (L.map cnt).foldr max 0 := by omega
        simp only [hmax, Prod.mk.injEq]
        all_goals exact ⟨by trivial, by omega⟩
    · by_cases h2 : cnt a = hi
      · rw [if_neg h1, if_pos h2,
          ih (out ++ [a]) hi (fun p hp => by
            rcases List.mem_append.mp hp with hp | hp
            · exact hout p hp
            · rcases List.mem_singleton.mp hp with rfl; exact h2)]
        by_cases h3 : (L.map cnt).foldr max 0 ≤ hi
        · rw [if_pos h3, if_pos (by omega), if_pos h2]
          rw [Prod.mk.injEq, List.append_assoc]
          all_goals exact ⟨by trivial, by omega⟩
        · rw [if_neg h3, if_neg (by omega), if_neg (by omega)]
          have hmax : cnt a ⊔ (L.map cnt).foldr max 0 = (L.map cnt).foldr max 0 := by
            omega
          simp only [hmax, Prod.mk.injEq]
          all_goals exact ⟨by trivial, by omega⟩
      · rw [if_neg h1, if_neg h2, ih out hi hout]
        by_cases h3 : (L.map cnt).foldr max 0 ≤ hi
        · rw [if_pos h3, if_pos (by omega), if_neg h2]
          rw [Prod.mk.injEq]
          all_goals exact ⟨by trivial, by omega⟩
        · rw [if_neg h3, if_neg (by omega), if_neg (by omega)]
          have hmax : cnt a ⊔ (L.map cnt).foldr max 0 = (L.map cnt).foldr max 0 := by
            omega
          simp only [hmax, Prod.mk.injEq]
          all_goals exact ⟨by trivial, by omega⟩

theorem GVals_gget {players : Nat} {g : Grid} (hv : GVals players g) (r c : Int) :
    0 ≤ gget g r c ∧ gget g r c ≤ (players : Int) := by
  unfold gget
  split
  · by_cases hr : r.toNat < g.length
    · by_cases hc : c.toNat < (g.getD r.toNat []).length
      · exact hv _ (getD_mem [] hr) _ (getD_mem 0 hc)
      · have hd : (g.getD r.toNat []).getD c.toNat 0 = 0 :=
          List.getD_eq_default _ _ (by omega)
        rw [hd]
        exact ⟨le_refl 0, Int.natCast_nonneg players⟩
    · have hrow : g.getD r.toNat [] = [] := List.getD_eq_default _ _ (by omega)
      rw [hrow]
      exact ⟨le_refl 0, Int.natCast_nonneg players⟩
  · exact ⟨le_refl 0, Int.natCast_nonneg players⟩

theorem avail_done {s : Reversi} (h : s.done = true) : (available_moves s).1 = [] := by
  unfold available_moves find_moves
  rw [if_pos h]
  rfl

/-- Every grid produced by the flip walk, also on the raising path, arises
from the input by writes of the mover's value. -/
theorem flipRay_pres (side turn : Nat) (P : Grid → Prop)
    (hP : ∀ g r c, P g → P (gset g r c (turn : Int))) :
    ∀ (fuel : Nat) (g : Grid) (r c y x : Int), P g →
      P (flipRay side turn fuel g r c y x).1.1 := by
  intro fuel
  induction fuel with
  | zero => intro g r c y x hg; exact hg
  | succ fuel ih =>
    intro g r c y x hg
    rw [flipRay]
    split
    · split
      · exact ih _ _ _ _ _ (hP g r c hg)
      · exact hg
    · exact hg

theorem flipDirs_pres (side turn : Nat) (md : MoveDict) (pos : Int × Int) (P : Grid → Prop)
    (hP : ∀ g r c, P g → P (gset g r c (turn : Int))) :
    ∀ (dirs : List (Int × Int)) (g : Grid), P g →
      P (flipDirs side turn md pos dirs g).1.1 := by
  intro dirs
  induction dirs with
  | nil => intro g hg; exact hg
  | cons d rest ih =>
    intro g hg
    rw [flipDirs]
    split
    · dsimp only
      rcases hFR : flipRay side turn (side + 1) g (pos.1 + d.1) (pos.2 + d.2) d.1 d.2
        with ⟨⟨g1, J1⟩, e1⟩
      have hg1 : P g1 := by
        have := flipRay_pres side turn P hP (side + 1) g (pos.1 + d.1) (pos.2 + d.2) d.1 d.2 hg
        rw [hFR] at this
        exact this
      split
      · exact hg1
      · exact ih g1 hg1
    · exact ih g hg

/-- The rollback restore loop, also on the raising path, writes only the
recorded owners (or empty). -/
theorem restoreSquares_pres {side players : Nat} :
    ∀ (J : List ((Int × Int) × Int)) (g : Grid), WfG side g → GVals players g →
      (∀ qp ∈ J, 0 ≤ qp.2 ∧ qp.2 ≤ (players : Int)) →
      WfG side (restoreSquares g J).1 ∧ GVals players (restoreSquares g J).1 := by
  intro J
  induction J with
  | nil => intro g hw hv _; exact ⟨hw, hv⟩
  | cons e rest ih =>
    intro g hw hv hJ
    obtain ⟨⟨a, b⟩, p⟩ := e
    obtain ⟨hp0, hpP⟩ := hJ _ (List.mem_cons_self _ _)
    rw [restoreSquares]
    split
    · split
      · exact ih _ (WfG_gset hw _ _ _) (GVals_gset hv _ _ hp0 hpP)
          (fun qp hqp => hJ qp (List.mem_cons_of_mem _ hqp))
      · exact ⟨hw, hv⟩
    · exact ih _ (WfG_gset hw _ _ _)
        (GVals_gset hv _ _ (le_refl 0) (Int.natCast_nonneg players))
        (fun qp hqp => hJ qp (List.mem_cons_of_mem _ hqp))

/-- Unpacking of a successful `load_game`. -/
theorem load_game_success {s : Reversi} {turn : Int} {g : Grid}
    (he : (load_game s turn g).2 = none) :
    (1 ≤ turn ∧ turn ≤ (s.players : Int)) ∧ g.length = s.side ∧
    gridOwnersOk s.players g = true ∧
    (load_game s turn g).1 =
      { s with grid := g, done := false, outcome := [], turn := turn.toNat } := by
  by_cases h1 : turn < 1 ∨ (s.players : Int) < turn
  · rw [load_game, if_pos h1] at he
    simp at he
  · by_cases h2 : g.length ≠ s.side
    · rw [load_game, if_neg h1, if_pos h2] at he
      simp at he
    · by_cases h3 : ¬ gridOwnersOk s.players g
      · rw [load_game, if_neg h1, if_neg h2, if_pos h3] at he
        simp at he
      · rw [not_not] at h2 h3
        refine ⟨⟨by omega, by omega⟩, h2, h3, ?_⟩
        rw [load_game, if_neg h1, if_neg (by omega), if_neg (by rw [h3]; simp)]

theorem gridOwnersOk_vals {players : Nat} {g : Grid} (h : gridOwnersOk players g = true) :
    GVals players g := by
  unfold gridOwnersOk at h
  rw [List.all_eq_true] at h
  intro row hrow v hv
  have := h row hrow
  rw [List.all_eq_true] at this
  have hvv := this v hv
  simp only [Bool.not_eq_true', Bool.or_eq_false_iff, decide_eq_false_iff_not, not_lt] at hvv
  exact ⟨hvv.2, hvv.1⟩

/-- The winner list computed by the `end_game` fold from an empty accumulator
is exactly the set of players achieving the maximum count, and is non-empty. -/
theorem egFold_winners (players : Nat) (g : Grid) (hp : 1 ≤ players) :
    ((List.range' 1 players).foldl (egStep (countPieces g)) ([], 0)).1 =
      (List.range' 1 players).filter (fun p => countPieces g p =
        ((List.range' 1 players).map (countPieces g)).foldr max 0) ∧
    ((List.range' 1 players).foldl (egStep (countPieces g)) ([], 0)).1 ≠ [] := by
  have h := egFold (countPieces g) (List.range' 1 players) [] 0 (by intro p hp'; simp at hp')
  rw [h]
  dsimp only
  have hLne : List.range' 1 players ≠ [] := by
    intro hc
    have := congrArg List.length hc
    rw [List.length_range'] at this
    simp at this
    omega
  by_cases hz : ((List.range' 1 players).map (countPieces g)).foldr max 0 ≤ 0
  · rw [if_pos hz, List.nil_append]
    have hz0 : ((List.range' 1 players).map (countPieces g)).foldr max 0 = 0 := by omega
    constructor
    · simp only [hz0]
    · have : (List.range' 1 players).filter (fun p => countPieces g p = 0) =
          List.range' 1 players := by
        rw [List.filter_eq_self]
        intro p hpmem
        have hle := le_foldr_max ((List.range' 1 players).map (countPieces g))
          (countPieces g p) (List.mem_map.mpr ⟨p, hpmem, rfl⟩)
        simp only [decide_eq_true_eq]
        omega
      rw [this]
      exact hLne
  · rw [if_neg hz]
    refine ⟨rfl, ?_⟩
    rcases foldr_max_attained ((List.range' 1 players).map (countPieces g)) with h0 | hm
    · omega
    · obtain ⟨p, hpmem, hpc⟩ := List.mem_map.mp hm
      have hpf : p ∈ (List.range' 1 players).filter (fun q => countPieces g q =
          ((List.range' 1 players).map (countPieces g)).foldr max 0) := by
        rw [List.mem_filter]
        exact ⟨hpmem, by simp [hpc]⟩
      exact List.ne_nil_of_mem hpf

/-! ### The state invariant and reachable states -/

/-- Invariant of engine states reachable through the public mutation surface
with legal inputs. -/
structure EngineInv (s : Reversi) : Prop where
  pl2 : 2 ≤ s.players
  ps : s.players < s.side
  par : s.side % 2 = s.players % 2
  wf : WfG s.side s.grid
  vals : GVals s.players s.grid
  turn1 : 1 ≤ s.turn
  turnP : s.turn ≤ s.players
  hist : ∀ e ∈ s.moves, 1 ≤ e.1 ∧ e.1 ≤ s.players ∧
    ∀ qp ∈ e.2, inB s.side qp.1.1 qp.1.2 ∧ 0 ≤ qp.2 ∧ qp.2 ≤ (s.players : Int)
  out_empty : s.done = false → s.outcome = []
  done_winners : s.done = true → (s.outcome ≠ [] ∧ ∀ p, p ∈ s.outcome ↔ p ∈ winners s)

/-- States reachable from a fresh construction through the engine's public
mutation surface: legal `apply_move`, `skip_turn`, successful `load_game` of a
rectangular grid, and `roll_back` (`simulate_moves` is the composition of a
deep copy with `apply_move` calls, so it adds no further states). -/
inductive Reachable : Reversi → Prop
  | init (side players : Nat) (oth : Bool) (s : Reversi) :
      mkReversi side players oth = Except.ok s → Reachable s
  | play (s : Reversi) (pos : Int × Int) : Reachable s →
      pos ∈ (available_moves s).1 → Reachable (apply_move s pos).1
  | skip (s : Reversi) : Reachable s → Reachable (skip_turn s)
  | load (s : Reversi) (turn : Int) (g : Grid) : Reachable s →
      (∀ row ∈ g, row.length = s.side) → (load_game s turn g).2 = none →
      Reachable (load_game s turn g).1
  | undo (s : Reversi) : Reachable s → Reachable (roll_back s).1

theorem winners_eq_of (s t : Reversi) (hp : t.players = s.players) (hg : t.grid = s.grid) :
    winners t = winners s := by
  unfold winners maxCount
  rw [hp, hg]

theorem mem_of_getLast' {α : Type} : ∀ {l : List α} {a : α}, l.getLast? = some a → a ∈ l := by
  intro l
  induction l with
  | nil => intro a h; simp at h
  | cons x xs ih =>
    intro a h
    cases xs with
    | nil =>
      simp only [List.getLast?_singleton, Option.some.injEq] at h
      rw [← h]
      exact List.mem_cons_self _ _
    | cons y ys =>
      rw [List.getLast?_cons_cons] at h
      exact List.mem_cons_of_mem _ (ih h)

/-- Unpacking of a successful construction. -/
theorem mkReversi_success {side players : Nat} {oth : Bool} {s : Reversi}
    (h : mkReversi side players oth = Except.ok s) :
    2 ≤ players ∧ players ≤ 9 ∧ players < side ∧ side % 2 = players % 2 ∧
    s.side = side ∧ s.players = players ∧ s.turn = 1 ∧
    s.done = false ∧ s.outcome = [] ∧ s.moves = [] ∧
    WfG side s.grid ∧ GVals players s.grid := by
  have hg0 : WfG side (List.replicate side (List.replicate side (0 : Int))) := by
    constructor
    · exact List.length_replicate _ _
    · intro row hrow
      rw [List.eq_of_mem_replicate hrow]
      exact List.length_replicate _ _
  have hv0 : GVals players (List.replicate side (List.replicate side (0 : Int))) := by
    intro row hrow v hv
    rw [List.eq_of_mem_replicate hrow] at hv
    rw [List.eq_of_mem_replicate hv]
    exact ⟨le_refl 0, Int.natCast_nonneg players⟩
  by_cases h1 : 2 < players ∧ oth = true
  · rw [mkReversi, if_pos h1] at h
    simp at h
  · by_cases h2 : players < 2 ∨ 9 < players
    · rw [mkReversi, if_neg h1, if_pos h2] at h
      simp at h
    · by_cases h3 : side < 3
      · rw [mkReversi, if_neg h1, if_neg h2, if_pos h3] at h
        simp at h
      · by_cases h4 : side ≤ players
        · rw [mkReversi, if_neg h1, if_neg h2, if_neg h3, if_pos h4] at h
          simp at h
        · by_cases h5 : side % 2 ≠ players % 2
          · rw [mkReversi, if_neg h1, if_neg h2, if_neg h3, if_neg h4, if_pos h5] at h
            simp at h
          · rw [mkReversi, if_neg h1, if_neg h2, if_neg h3, if_neg h4, if_neg h5] at h
            dsimp only at h
            push_neg at h1 h2
            by_cases h6 : oth = true
            · rw [if_pos h6, Except.ok.injEq] at h
              have hpl : players = 2 := by
                by_contra hne
                exact h1 (by omega) h6
              refine ⟨by omega, by omega, by omega, by omega,
                ?_, ?_, ?_, ?_, ?_, ?_, ?_, ?_⟩ <;> rw [← h]
              · exact WfG_gset (WfG_gset (WfG_gset (WfG_gset hg0 _ _ _) _ _ _) _ _ _) _ _ _
              · refine GVals_gset (GVals_gset (GVals_gset (GVals_gset hv0 _ _ ?_ ?_) _ _ ?_ ?_)
                  _ _ ?_ ?_) _ _ ?_ ?_ <;> omega
            · rw [if_neg h6, Except.ok.injEq] at h
              refine ⟨by omega, by omega, by omega, by omega,
                ?_, ?_, ?_, ?_, ?_, ?_, ?_, ?_⟩ <;> rw [← h]
              · exact hg0
              · exact hv0

theorem inv_skip (s : Reversi) (hi : EngineInv s) : EngineInv (skip_turn s) := by
  have hw := winners_eq_of s (skip_turn s) (skip_turn_players s) (skip_turn_grid s)
  have hpl2 := hi.pl2
  have htP := hi.turnP
  refine ⟨?_, ?_, ?_, ?_, ?_, ?_, ?_, ?_, ?_, ?_⟩
  · rw [skip_turn_players]; exact hi.pl2
  · rw [skip_turn_players, skip_turn_side]; exact hi.ps
  · rw [skip_turn_side, skip_turn_players]; exact hi.par
  · rw [skip_turn_side, skip_turn_grid]; exact hi.wf
  · rw [skip_turn_players, skip_turn_grid]; exact hi.vals
  · rw [skip_turn_turn]; split <;> omega
  · rw [skip_turn_turn, skip_turn_players]; split <;> omega
  · rw [skip_turn_moves, skip_turn_side, skip_turn_players]; exact hi.hist
  · rw [skip_turn_done, skip_turn_outcome]; exact hi.out_empty
  · rw [skip_turn_done, skip_turn_outcome, hw]; exact hi.done_winners

theorem inv_load (s : Reversi) (turn : Int) (g : Grid) (hi : EngineInv s)
    (hrows : ∀ row ∈ g, row.length = s.side) (he : (load_game s turn g).2 = none) :
    EngineInv (load_game s turn g).1 := by
  obtain ⟨⟨ht1, ht2⟩, hlen, hok, heq⟩ := load_game_success he
  have hpl2 := hi.pl2
  rw [heq]
  refine ⟨hi.pl2, hi.ps, hi.par, ⟨hlen, hrows⟩, gridOwnersOk_vals hok, ?_, ?_, hi.hist, ?_, ?_⟩
  · show 1 ≤ turn.toNat
    omega
  · show turn.toNat ≤ s.players
    omega
  · intro _; rfl
  · intro hd; simp at hd

theorem inv_roll_back (s : Reversi) (hi : EngineInv s) : EngineInv (roll_back s).1 := by
  rcases hL : s.moves.getLast? with _ | tm
  · rw [roll_back, hL]
    exact hi
  · obtain ⟨trn, mv⟩ := tm
    have hmem := mem_of_getLast' hL
    obtain ⟨htrn1, htrnP, hsq⟩ := hi.hist _ hmem
    have hRwf := restoreSquares_pres mv s.grid hi.wf hi.vals
      (fun qp hqp => ⟨(hsq qp hqp).2.1, (hsq qp hqp).2.2⟩)
    have hhist : ∀ e ∈ s.moves.dropLast, 1 ≤ e.1 ∧ e.1 ≤ s.players ∧
        ∀ qp ∈ e.2, inB s.side qp.1.1 qp.1.2 ∧ 0 ≤ qp.2 ∧ qp.2 ≤ (s.players : Int) :=
      fun e he => hi.hist e (List.dropLast_subset _ he)
    rw [roll_back, hL]
    dsimp only
    by_cases hd : s.done = true
    · rw [if_pos hd]
      by_cases hl : mv.length = 1
      · rw [if_pos hl]
        exact ⟨hi.pl2, hi.ps, hi.par, hRwf.1, hRwf.2, htrn1, htrnP, hhist,
          fun _ => rfl, fun h => by simp at h⟩
      · rw [if_neg hl]
        exact ⟨hi.pl2, hi.ps, hi.par, hRwf.1, hRwf.2, htrn1, htrnP, hhist,
          fun _ => rfl, fun h => by simp at h⟩
    · rw [if_neg hd]
      have hdf : s.done = false := by
        rw [Bool.not_eq_true] at hd
        exact hd
      have hoe := hi.out_empty hdf
      by_cases hl : mv.length = 1
      · rw [if_pos hl]
        exact ⟨hi.pl2, hi.ps, hi.par, hRwf.1, hRwf.2, htrn1, htrnP, hhist,
          fun _ => hoe, fun h => absurd h hd⟩
      · rw [if_neg hl]
        exact ⟨hi.pl2, hi.ps, hi.par, hRwf.1, hRwf.2, htrn1, htrnP, hhist,
          fun _ => hoe, fun h => absurd h hd⟩

/-- On the raising paths of `apply_move` the non-grid state is unchanged (the
history is not yet appended, the turn not yet advanced) and the grid is still
a well-formed board with valid owners. -/
theorem apply_move_err_spec (s t : Reversi) (pos : Int × Int) (err : String)
    (h : apply_move s pos = (t, some err)) (hw : WfG s.side s.grid)
    (hv : GVals s.players s.grid) (htP : s.turn ≤ s.players) :
    t.side = s.side ∧ t.players = s.players ∧ t.turn = s.turn ∧ t.done = s.done ∧
    t.outcome = s.outcome ∧ t.moves = s.moves ∧ WfG s.side t.grid ∧
    GVals s.players t.grid := by
  have hset : ∀ (g : Grid) (r c : Int), (WfG s.side g ∧ GVals s.players g) →
      WfG s.side (gset g r c ((s.turn : Nat) : Int)) ∧
      GVals s.players (gset g r c ((s.turn : Nat) : Int)) := by
    intro g r c hg
    exact ⟨WfG_gset hg.1 _ _ _,
      GVals_gset hg.2 _ _ (Int.natCast_nonneg _) (by exact_mod_cast htP)⟩
  unfold apply_move at h
  split at h
  · have hts : s = t := (Prod.ext_iff.mp h).1
    rw [← hts]
    exact ⟨rfl, rfl, rfl, rfl, rfl, rfl, hw, hv⟩
  · dsimp only at h
    rcases hFD : flipDirs (find_moves s).2.side (find_moves s).2.turn (find_moves s).1 pos
        DIRECTION_LIST (gset (find_moves s).2.grid pos.1 pos.2 ((find_moves s).2.turn : Int))
      with ⟨⟨gF, JF⟩, eF⟩
    rw [hFD] at h
    split at h
    · have hts : t = { (find_moves s).2 with grid := gF } := ((Prod.ext_iff.mp h).1).symm
      have hgF : WfG s.side gF ∧ GVals s.players gF := by
        have := flipDirs_pres (find_moves s).2.side (find_moves s).2.turn (find_moves s).1 pos
          (fun g => WfG s.side g ∧ GVals s.players g)
          (by rw [find_moves_turn]; exact hset) DIRECTION_LIST
          (gset (find_moves s).2.grid pos.1 pos.2 ((find_moves s).2.turn : Int))
          (by rw [find_moves_grid, find_moves_turn]; exact hset s.grid pos.1 pos.2 ⟨hw, hv⟩)
        rw [hFD] at this
        exact this
      rw [hts]
      refine ⟨?_, ?_, ?_, ?_, ?_, ?_, hgF.1, hgF.2⟩
      · exact find_moves_side s
      · exact find_moves_players s
      · exact find_moves_turn s
      · exact find_moves_done s
      · exact find_moves_outcome s
      · exact find_moves_moves s
    · split at h <;> exact absurd (congrArg Prod.snd h) (by simp)

theorem inv_apply_move (s : Reversi) (pos : Int × Int) (hi : EngineInv s)
    (hmem : pos ∈ (available_moves s).1) : EngineInv (apply_move s pos).1 := by
  have hdone : s.done = false := by
    by_contra hdc
    rw [Bool.not_eq_false] at hdc
    rw [avail_done hdc] at hmem
    simp at hmem
  have hout : s.outcome = [] := hi.out_empty hdone
  have hpl2 := hi.pl2
  have ht1 := hi.turn1
  have htP := hi.turnP
  rcases he : (apply_move s pos).2 with _ | err
  · -- success path
    have hAM : apply_move s pos = ((apply_move s pos).1, none) := by
      rw [← he]
    obtain ⟨hbp, J, hJ, hnd, hposJ, hgr, hmv, hside, hplayers, hbr⟩ :=
      apply_move_spec s (apply_move s pos).1 pos hAM
    have hturnInt : (0 : Int) ≤ (s.turn : Int) ∧ (s.turn : Int) ≤ (s.players : Int) :=
      ⟨Int.natCast_nonneg _, by exact_mod_cast htP⟩
    refine ⟨?_, ?_, ?_, ?_, ?_, ?_, ?_, ?_, ?_, ?_⟩
    · rw [hplayers]; exact hi.pl2
    · rw [hplayers, hside]; exact hi.ps
    · rw [hside, hplayers]; exact hi.par
    · rw [hside, hgr]
      exact WfG_gsetFold _ _ _ (WfG_gset hi.wf _ _ _)
    · rw [hplayers, hgr]
      exact GVals_gsetFold _ _ _
        (GVals_gset hi.vals _ _ hturnInt.1 hturnInt.2)
        (fun e _ => hturnInt)
    · rcases hbr with ⟨_, _, htn⟩ | ⟨_, htn, _⟩
      · rw [htn]; split <;> omega
      · rw [htn]
    · rcases hbr with ⟨_, _, htn⟩ | ⟨_, htn, _⟩
      · rw [htn, hplayers]; split <;> omega
      · rw [htn, hplayers]; omega
    · rw [hmv, hside, hplayers]
      intro e he'
      rcases List.mem_append.mp he' with hold | hnew
      · exact hi.hist e hold
      · rcases List.mem_singleton.mp hnew with rfl
        refine ⟨ht1, htP, ?_⟩
        intro qp hqp
        rcases List.mem_cons.mp hqp with rfl | hqJ
        · exact ⟨hbp, le_refl 0, Int.natCast_nonneg _⟩
        · obtain ⟨hb, _, hval, _, _⟩ := hJ qp hqJ
          refine ⟨hb, ?_, ?_⟩
          · rw [hval]; exact (GVals_gget hi.vals _ _).1
          · rw [hval]; exact (GVals_gget hi.vals _ _).2
    · rcases hbr with ⟨hdn, hoc, _⟩ | ⟨hdn, _, _⟩
      · intro _
        rw [hoc, hout]
      · intro hf
        rw [hdn] at hf
        simp at hf
    · rcases hbr with ⟨hdn, _, _⟩ | ⟨hdn, _, hoc⟩
      · intro hd
        rw [hdn, hdone] at hd
        simp at hd
      · intro _
        have hget := egFold_winners s.players (apply_move s pos).1.grid (by omega)
        have houtw : (apply_move s pos).1.outcome = winners (apply_move s pos).1 := by
          rw [hoc, hout, hget.1]
          unfold winners maxCount
          rw [hplayers]
        refine ⟨?_, fun p => by rw [houtw]⟩
        rw [hoc, hout]
        exact hget.2
  · -- raising path
    obtain ⟨hside, hplayers, hturn, hdn, hoc, hmv, hwf, hvl⟩ :=
      apply_move_err_spec s (apply_move s pos).1 pos err (by rw [← he]) hi.wf hi.vals htP
    refine ⟨?_, ?_, ?_, ?_, ?_, ?_, ?_, ?_, ?_, ?_⟩
    · rw [hplayers]; exact hi.pl2
    · rw [hplayers, hside]; exact hi.ps
    · rw [hside, hplayers]; exact hi.par
    · rw [hside]; exact hwf
    · rw [hplayers]; exact hvl
    · rw [hturn]; exact hi.turn1
    · rw [hturn, hplayers]; exact hi.turnP
    · rw [hmv, hside, hplayers]; exact hi.hist
    · rw [hdn, hoc]; exact hi.out_empty
    · intro hd
      rw [hdn, hdone] at hd
      simp at hd

theorem reachable_inv (s : Reversi) (h : Reachable s) : EngineInv s := by
  induction h with
  | init side players oth s hmk =>
    obtain ⟨h2, h9, hps, hpar, hside, hplayers, hturn, hdone, hout, hmv, hwf, hv⟩ :=
      mkReversi_success hmk
    refine ⟨?_, ?_, ?_, ?_, ?_, ?_, ?_, ?_, ?_, ?_⟩
    · rw [hplayers]; exact h2
    · rw [hplayers, hside]; exact hps
    · rw [hside, hplayers]; exact hpar
    · rw [hside]; exact hwf
    · rw [hplayers]; exact hv
    · rw [hturn]
    · rw [hturn, hplayers]; omega
    · rw [hmv]; intro e he; simp at he
    · intro _; exact hout
    · intro hd; rw [hdone] at hd; simp at hd
  | play s pos hr hmem ih => exact inv_apply_move s pos ih hmem
  | skip s hr ih => exact inv_skip s ih
  | load s turn g hr hrows he ih => exact inv_load s turn g ih hrows he
  | undo s hr ih => exact inv_roll_back s ih

/-- C8: in every reachable state, `outcome` is non-empty exactly when `done`
is set; in a done state `available_moves` is empty and the members of
`outcome` are exactly the players achieving the maximum piece count. -/
theorem c8_outcome_iff_done (s : Reversi) (h : Reachable s) :
    (s.outcome ≠ [] ↔ s.done = true) ∧
    (s.done = true → (available_moves s).1 = [] ∧ ∀ p, p ∈ s.outcome ↔ p ∈ winners s) := by
  have hi := reachable_inv s h
  constructor
  · constructor
    · intro hne
      by_contra hd
      rw [Bool.not_eq_true] at hd
      exact hne (hi.out_empty hd)
    · intro hd
      exact (hi.done_winners hd).1
  · intro hd
    exact ⟨avail_done hd, (hi.done_winners hd).2⟩

/-- Witness for C8 at the concrete reachable initial Othello position. -/
theorem c8_outcome_iff_done_witness :
    (scenarioA.outcome ≠ [] ↔ scenarioA.done = true) ∧
    (scenarioA.done = true →
      (available_moves scenarioA).1 = [] ∧ ∀ p, p ∈ scenarioA.outcome ↔ p ∈ winners scenarioA) :=
  c8_outcome_iff_done scenarioA (Reachable.init 8 2 true scenarioA (by rfl))

/-- C2 (amended): for every reachable state and every available move whose
`apply_move` completes without raising, an immediate `roll_back` succeeds and
restores `grid`, `turn`, `done` and `outcome` to their pre-move values. -/
theorem c2_roundtrip (s : Reversi) (pos : Int × Int) (h : Reachable s)
    (hmem : pos ∈ (available_moves s).1) (hok : (apply_move s pos).2 = none) :
    (roll_back (apply_move s pos).1).2 = none ∧
    (roll_back (apply_move s pos).1).1.grid = s.grid ∧
    (roll_back (apply_move s pos).1).1.turn = s.turn ∧
    (roll_back (apply_move s pos).1).1.done = s.done ∧
    (roll_back (apply_move s pos).1).1.outcome = s.outcome := by
  obtain ⟨p1, p2⟩ := pos
  have hi := reachable_inv s h
  have hdone : s.done = false := by
    by_contra hdc
    rw [Bool.not_eq_false] at hdc
    rw [avail_done hdc] at hmem
    simp at hmem
  have hout : s.outcome = [] := hi.out_empty hdone
  have hposE : inB s.side p1 p2 ∧ gget s.grid p1 p2 = 0 := by
    obtain ⟨e, he, hpe⟩ := avail_mem_entry hmem
    exact find_moves_entry_prop s hi.pl2 hi.ps hi.par e he (p1, p2) hpe
  have hAM : apply_move s (p1, p2) = ((apply_move s (p1, p2)).1, none) := by
    rw [← hok]
  obtain ⟨hbp, J, hJ, hnd, hposJ, hgr, hmv, hside, hplayers, hbr⟩ :=
    apply_move_spec s (apply_move s (p1, p2)).1 (p1, p2) hAM
  have hturn1I : (1 : Int) ≤ (s.turn : Int) := by exact_mod_cast hi.turn1
  have hwf_t : WfG s.side (apply_move s (p1, p2)).1.grid := by
    rw [hgr]
    exact WfG_gsetFold _ _ _ (WfG_gset hi.wf _ _ _)
  have hlast : (apply_move s (p1, p2)).1.moves.getLast? = some (s.turn, ((p1, p2), 0) :: J) := by
    rw [hmv]
    exact List.getLast?_concat _
  have hdrop : (apply_move s (p1, p2)).1.moves.dropLast = s.moves := by
    rw [hmv]
    exact List.dropLast_concat
  have htgJ : ∀ qp ∈ J, gget (apply_move s (p1, p2)).1.grid qp.1.1 qp.1.2 = (s.turn : Int) := by
    intro qp hqp
    rw [hgr]
    exact gget_gsetFold_mem _ J _ qp hnd hqp (hJ qp hqp).1 (WfG_gset hi.wf _ _ _)
  have hres := restore_spec J (gset (apply_move s (p1, p2)).1.grid p1 p2 0)
    (WfG_gset hwf_t _ _ _)
    (by
      intro qp hqp
      obtain ⟨hb, hne, hval, hz, _⟩ := hJ qp hqp
      refine ⟨hb, ?_, ?_⟩
      · have := (GVals_gget hi.vals qp.1.1 qp.1.2).1
        rw [hval]
        omega
      · have hnepair : (p1, p2) ≠ (qp.1.1, qp.1.2) := by
          rw [Prod.mk.eta]
          exact fun hc => hne hc.symm
        rw [gget_gset_ne _ hnepair, htgJ qp hqp]
        omega)
    hnd
  have hrestore : restoreSquares (apply_move s (p1, p2)).1.grid (((p1, p2), 0) :: J) =
      (gsetFold (fun qp => qp.2) (gset (apply_move s (p1, p2)).1.grid p1 p2 0) J, none) := by
    rw [restoreSquares, if_neg (by omega)]
    exact hres
  have hR : gsetFold (fun qp => qp.2) (gset (apply_move s (p1, p2)).1.grid p1 p2 0) J =
      s.grid := by
    refine grid_ext
      (WfG_gsetFold _ _ _ (WfG_gset hwf_t _ _ _)) hi.wf ?_
    intro i j hiS hjS
    by_cases hqp : ((i : Int), (j : Int)) = (p1, p2)
    · rw [Prod.mk.injEq] at hqp
      rw [hqp.1, hqp.2]
      have h1 : gget (gsetFold (fun qp => qp.2)
          (gset (apply_move s (p1, p2)).1.grid p1 p2 0) J) p1 p2 =
          gget (gset (apply_move s (p1, p2)).1.grid p1 p2 0) p1 p2 :=
        gget_gsetFold_notmem _ J _ (p1, p2) hposJ
      rw [h1, gget_gset_self hwf_t hposE.1, hposE.2]
    · by_cases hqJ : ((i : Int), (j : Int)) ∈ J.map Prod.fst
      · obtain ⟨qp, hqpJ, hq1⟩ := List.mem_map.mp hqJ
        have h11 : qp.1.1 = (i : Int) := congrArg Prod.fst hq1
        have h12 : qp.1.2 = (j : Int) := congrArg Prod.snd hq1
        rw [← h11, ← h12]
        rw [gget_gsetFold_mem _ J _ qp hnd hqpJ (hJ qp hqpJ).1 (WfG_gset hwf_t _ _ _)]
        exact (hJ qp hqpJ).2.2.1
      · have h1 : gget (gsetFold (fun qp => qp.2)
            (gset (apply_move s (p1, p2)).1.grid p1 p2 0) J) (i : Int) (j : Int) =
            gget (gset (apply_move s (p1, p2)).1.grid p1 p2 0) (i : Int) (j : Int) :=
          gget_gsetFold_notmem _ J _ ((i : Int), (j : Int)) hqJ
        rw [h1, gget_gset_ne _ (fun hc => hqp hc.symm) 0, hgr]
        have h2 : gget (gsetFold (fun _ => (s.turn : Int))
            (gset s.grid p1 p2 (s.turn : Int)) J) (i : Int) (j : Int) =
            gget (gset s.grid p1 p2 (s.turn : Int)) (i : Int) (j : Int) :=
          gget_gsetFold_notmem _ J _ ((i : Int), (j : Int)) hqJ
        rw [h2, gget_gset_ne _ (fun hc => hqp hc.symm) _]
  rcases hbr with ⟨hdn, hoc, _⟩ | ⟨hdn, _, _⟩
  · have hntd : ¬ ((apply_move s (p1, p2)).1.done = true) := by
      rw [hdn, hdone]
      simp
    rw [roll_back, hlast]
    dsimp only
    rw [if_neg hntd, hdrop]
    split
    · rw [hrestore, hR]
      exact ⟨rfl, rfl, rfl, hdn, hoc⟩
    · rw [hrestore, hR]
      exact ⟨rfl, rfl, rfl, hdn, hoc⟩
  · rw [roll_back, hlast]
    dsimp only
    rw [if_pos hdn, hdrop]
    split
    · rw [hrestore, hR]
      exact ⟨rfl, rfl, rfl, hdone.symm, hout.symm⟩
    · rw [hrestore, hR]
      exact ⟨rfl, rfl, rfl, hdone.symm, hout.symm⟩

/-- Witness for C2 at the reachable initial 4x4 Othello position and the
legal move `(0,1)`. -/
theorem c2_roundtrip_witness :
    (roll_back (apply_move reversi4x4othello (0, 1)).1).2 = none ∧
    (roll_back (apply_move reversi4x4othello (0, 1)).1).1.grid = reversi4x4othello.grid ∧
    (roll_back (apply_move reversi4x4othello (0, 1)).1).1.turn = reversi4x4othello.turn ∧
    (roll_back (apply_move reversi4x4othello (0, 1)).1).1.done = reversi4x4othello.done ∧
    (roll_back (apply_move reversi4x4othello (0, 1)).1).1.outcome =
      reversi4x4othello.outcome :=
  c2_roundtrip reversi4x4othello (0, 1)
    (Reachable.init 4 2 true reversi4x4othello (by rfl)) (by decide) (by decide)

/-- C2 counterexample to the claim as stated: in the reachable fresh
`side=4, players=2, othello=False` game, `(1,1)` is in `available_moves`, yet
`apply_move` raises mid-mutation (no history record is pushed), so the
follow-up `roll_back` raises as well and the grid is left corrupted rather
than restored. -/
theorem c2_roundtrip_counterexample :
    mkReversi 4 2 false = Except.ok scenario4n ∧
    (1, 1) ∈ (available_moves scenario4n).1 ∧
    (apply_move scenario4n (1, 1)).2 ≠ none ∧
    (roll_back (apply_move scenario4n (1, 1)).1).2 ≠ none ∧
    (roll_back (apply_move scenario4n (1, 1)).1).1.grid ≠ scenario4n.grid := by
  decide

/-- C5 (amended): behaviour of `load_game`.  The three validation failures
raise the distinct messages and leave the state untouched; a valid load
replaces the grid and turn and resets `done`/`outcome`, but does NOT clear the
move history. -/
theorem c5_load_game_spec (s : Reversi) (turn : Int) (g : Grid) :
    (turn < 1 ∨ (s.players : Int) < turn →
       load_game s turn g = (s, some "No such player exists")) ∧
    (1 ≤ turn ∧ turn ≤ (s.players : Int) → g.length ≠ s.side →
       load_game s turn g = (s, some "Input is not the same size as the current board")) ∧
    (1 ≤ turn ∧ turn ≤ (s.players : Int) → g.length = s.side →
       (∃ row ∈ g, ∃ v ∈ row, (s.players : Int) < v ∨ v < 0) →
       load_game s turn g = (s, some "Grid contains invalid player")) ∧
    (1 ≤ turn ∧ turn ≤ (s.players : Int) → g.length = s.side →
       (∀ row ∈ g, ∀ v ∈ row, 0 ≤ v ∧ v ≤ (s.players : Int)) →
       load_game s turn g =
         ({ s with grid := g, done := false, outcome := [], turn := turn.toNat }, none)) := by
  refine ⟨?_, ?_, ?_, ?_⟩
  · intro h1
    rw [load_game, if_pos h1]
  · intro h1 h2
    rw [load_game, if_neg (by omega), if_pos h2]
  · intro h1 h2 h3
    have hbad : ¬ gridOwnersOk s.players g = true := by
      unfold gridOwnersOk
      rw [List.all_eq_true]
      intro hall
      obtain ⟨row, hrow, v, hv, hbadv⟩ := h3
      have := hall row hrow
      rw [List.all_eq_true] at this
      have hvv := this v hv
      simp only [Bool.not_eq_true', Bool.or_eq_false_iff, decide_eq_false_iff_not,
        not_lt] at hvv
      omega
    rw [load_game, if_neg (by omega), if_neg (by omega), if_pos (by simpa using hbad)]
  · intro h1 h2 h3
    have hok : gridOwnersOk s.players g = true := by
      unfold gridOwnersOk
      rw [List.all_eq_true]
      intro row hrow
      rw [List.all_eq_true]
      intro v hv
      have := h3 row hrow v hv
      simp only [Bool.not_eq_true', Bool.or_eq_false_iff, decide_eq_false_iff_not, not_lt]
      omega
    rw [load_game, if_neg (by omega), if_neg (by omega), if_neg (by rw [hok]; simp)]

/-- A 4x4 grid with an invalid owner (3 > players = 2). -/
def badOwnerGrid : Grid := [[3, 0, 0, 0], [0, 0, 0, 0], [0, 0, 0, 0], [0, 0, 0, 0]]

/-- Witness for C5: the three failures and a success, each at concrete
inputs (note `turn.toNat` of `1` is `1`). -/
theorem c5_load_game_spec_witness :
    load_game reversi4x4othello 0 c4Grid = (reversi4x4othello, some "No such player exists") ∧
    load_game reversi4x4othello 1 [[0]] =
      (reversi4x4othello, some "Input is not the same size as the current board") ∧
    load_game reversi4x4othello 1 badOwnerGrid =
      (reversi4x4othello, some "Grid contains invalid player") ∧
    load_game reversi4x4othello 1 c4Grid =
      ({ reversi4x4othello with grid := c4Grid, done := false, outcome := [], turn := 1 },
        none) :=
  ⟨(c5_load_game_spec reversi4x4othello 0 c4Grid).1 (by omega),
   (c5_load_game_spec reversi4x4othello 1 [[0]]).2.1 (by constructor <;> decide) (by decide),
   (c5_load_game_spec reversi4x4othello 1 badOwnerGrid).2.2.1 (by constructor <;> decide)
     (by decide) (by decide),
   (c5_load_game_spec reversi4x4othello 1 c4Grid).2.2.2 (by constructor <;> decide)
     (by decide) (by decide)⟩
